import Mathlib

/-!
# GenlockWhisker: edge capture, window aggregator and lock classifier

A shallow embedding of `src/software/RP2040_Genlock_Whisker/src/main.cpp`.

* `uint32_t` / `uint64_t` values are natural numbers; every operation that can
  wrap is written with an explicit `% 2^32` / `% 2^64`.
* The volatile globals written by `vsyncISR` form the record `Accum`; the
  interrupt handler is the function `vsyncISR`, and the critical section of
  `loop()` is `snapshot` followed by `resetWindow`.
* Finite `double` / `float` values are rational numbers.  Constants and
  comparisons are taken literally; the operations that round (`/`, `*`, `-`,
  `sqrt`, the integer conversions and the narrowing to `float`) are the fields
  of a `FloatArith`, so results hold for every rounding behaviour.
-/

namespace GenlockWhisker

/-! ## Configuration constants -/

/-- Source constant `kMinValidFramePeriodUs`. -/
def kMinValidFramePeriodUs : Nat := 5000

/-- Source constant `kNoLockTimeoutUs`. -/
def kNoLockTimeoutUs : Nat := 250000

/-- Number of values of a `uint32_t`. -/
def U32 : Nat := 4294967296

/-- Number of values of a `uint64_t`. -/
def U64 : Nat := 18446744073709551616

/-- Initial value of `minPeriodUs`, the literal `0xFFFFFFFF`. -/
def kMinInit : Nat := 0xFFFFFFFF

/-- Wrapping `uint32_t` subtraction `a - b`. -/
def sub32 (a b : Nat) : Nat := (a + (U32 - b % U32)) % U32

/-! ## Edge capture -/

/-- The volatile statistics globals of the program. -/
structure Accum where
  lastVsyncMicros : Nat
  vsyncCount : Nat
  sumPeriodsUs : Nat
  sumSqPeriodsUs2 : Nat
  minPeriodUs : Nat
  maxPeriodUs : Nat
  deriving DecidableEq, Repr

/-- Values of the globals after static initialisation. -/
def powerOn : Accum :=
  { lastVsyncMicros := 0
    vsyncCount := 0
    sumPeriodsUs := 0
    sumSqPeriodsUs2 := 0
    minPeriodUs := kMinInit
    maxPeriodUs := 0 }

/-- Interrupt handler `vsyncISR`, with `now` the value returned by `micros()`. -/
def vsyncISR (s : Accum) (now : Nat) : Accum :=
  let prev := s.lastVsyncMicros
  let s1 := { s with lastVsyncMicros := now }
  if prev ≠ 0 then
    let period := sub32 now prev
    if period ≥ kMinValidFramePeriodUs then
      { s1 with
        vsyncCount := (s1.vsyncCount + 1) % U32
        sumPeriodsUs := (s1.sumPeriodsUs + period) % U64
        sumSqPeriodsUs2 := (s1.sumSqPeriodsUs2 + (period * period) % U64) % U64
        minPeriodUs := if period < s1.minPeriodUs then period else s1.minPeriodUs
        maxPeriodUs := if period > s1.maxPeriodUs then period else s1.maxPeriodUs }
    else s1
  else s1

/-- A run of edge interrupts with the given `micros()` readings, oldest first. -/
def runEdges (s : Accum) (ts : List Nat) : Accum := ts.foldl vsyncISR s

/-! ## Window aggregator -/

/-- The locals of `loop()` filled inside the critical section. -/
structure Snapshot where
  count : Nat
  sumP : Nat
  sumSqP : Nat
  minP : Nat
  maxP : Nat
  lastEdgeUs : Nat
  deriving DecidableEq, Repr

/-- The copy made between `noInterrupts()` and the reset. -/
def snapshot (s : Accum) : Snapshot :=
  { count := s.vsyncCount
    sumP := s.sumPeriodsUs
    sumSqP := s.sumSqPeriodsUs2
    minP := if s.minPeriodUs = kMinInit then 0 else s.minPeriodUs
    maxP := s.maxPeriodUs
    lastEdgeUs := s.lastVsyncMicros }

/-- The "reset for next window" assignments; `lastVsyncMicros` is not assigned. -/
def resetWindow (s : Accum) : Accum :=
  { s with
    vsyncCount := 0
    sumPeriodsUs := 0
    sumSqPeriodsUs2 := 0
    minPeriodUs := kMinInit
    maxPeriodUs := 0 }

/-- The whole critical section: snapshot, then reset. -/
def drain (s : Accum) : Snapshot × Accum := (snapshot s, resetWindow s)

/-- Level of a digital input as returned by `digitalRead`. -/
inductive PinStatus where
  | LOW
  | HIGH
  deriving DecidableEq, Repr

/-- Source function `triLevelDetected`, given the level read on `HD_DET_PIN`. -/
def triLevelDetected (hdDet : PinStatus) : Bool := hdDet = PinStatus.LOW

/-- The rounding floating-point operations used by `loop()`. -/
structure FloatArith where
  /-- Conversion `(double)n` of an unsigned integer. -/
  ofUInt : Nat → ℚ
  /-- Division of doubles. -/
  div : ℚ → ℚ → ℚ
  /-- Product of doubles. -/
  mul : ℚ → ℚ → ℚ
  /-- Difference of doubles. -/
  sub : ℚ → ℚ → ℚ
  /-- Library function `sqrt`. -/
  sqrt : ℚ → ℚ
  /-- Narrowing conversion `(float)x`. -/
  toFloat : ℚ → ℚ
  /-- Zero is representable as a `float`. -/
  toFloat_zero : toFloat 0 = 0

/-- Arithmetic without rounding; the square root is exact on squares of
rationals and is rounded down to a multiple of `1 / den` elsewhere. -/
def exactArith : FloatArith :=
  { ofUInt := fun n => (n : ℚ)
    div := fun a b => a / b
    mul := fun a b => a * b
    sub := fun a b => a - b
    sqrt := fun q => (Nat.sqrt (q.num.toNat * q.den) : ℚ) / (q.den : ℚ)
    toFloat := fun a => a
    toFloat_zero := rfl }

/-- The statement `bool locked = ...` of `loop()`. -/
def locked (lastEdgeUs nowUs : Nat) : Bool :=
  (lastEdgeUs ≠ 0) && (sub32 nowUs lastEdgeUs < kNoLockTimeoutUs)

/-- The assignment to `syncLabel` in `loop()`. -/
def classify (lastEdgeUs nowUs : Nat) (measuredFps : ℚ) (hdDet : PinStatus) : String :=
  if (!locked lastEdgeUs nowUs) || measuredFps < 1 then "NO LOCK"
  else if triLevelDetected hdDet then "TRI-LEVEL" else "BI-LEVEL"

/-- The locals `fps`, `meanPeriodUs`, `rmsJitterUs` and `ppJitterUs` of `loop()`. -/
structure Derived where
  fps : ℚ
  meanPeriodUs : ℚ
  rmsJitterUs : ℚ
  ppJitterUs : Nat

/-- The statistics block of `loop()`: the four locals start at zero and are
assigned only under `count >= 1 && sumP > 0`. -/
def deriveStats (A : FloatArith) (w : Snapshot) : Derived :=
  if w.count ≥ 1 ∧ w.sumP > 0 then
    let meanPeriodUs := A.div (A.ofUInt w.sumP) (A.ofUInt w.count)
    let fps := A.div 1000000 meanPeriodUs
    let meanSq := A.div (A.ofUInt w.sumSqP) (A.ofUInt w.count)
    let meanP := meanPeriodUs
    let var := A.sub meanSq (A.mul meanP meanP)
    let var := if var < 0 then 0 else var
    let rmsJitterUs := A.sqrt var
    let ppJitterUs := if w.minP > 0 ∧ w.maxP ≥ w.minP then sub32 w.maxP w.minP else 0
    { fps := fps, meanPeriodUs := meanPeriodUs, rmsJitterUs := rmsJitterUs,
      ppJitterUs := ppJitterUs }
  else
    { fps := 0, meanPeriodUs := 0, rmsJitterUs := 0, ppJitterUs := 0 }

/-- Values computed by the once-per-second block of `loop()`. -/
structure WindowStats where
  fps : ℚ
  meanPeriodUs : ℚ
  rmsJitterUs : ℚ
  ppJitterUs : Nat
  measuredFps : ℚ
  syncLabel : String
  jitterPpm : ℚ

/-- The once-per-second block of `loop()` after the critical section. -/
def computeWindow (A : FloatArith) (w : Snapshot) (nowUs : Nat) (hdDet : PinStatus) :
    WindowStats :=
  let d := deriveStats A w
  let measuredFps := A.toFloat d.fps
  let syncLabel := classify w.lastEdgeUs nowUs measuredFps hdDet
  let jitterPpm :=
    if d.meanPeriodUs > 0 then A.mul (A.div d.rmsJitterUs d.meanPeriodUs) 1000000 else 0
  { fps := d.fps
    meanPeriodUs := d.meanPeriodUs
    rmsJitterUs := d.rmsJitterUs
    ppJitterUs := d.ppJitterUs
    measuredFps := measuredFps
    syncLabel := syncLabel
    jitterPpm := jitterPpm }

/-- One measurement window of `loop()`: `nowUs` was read before the critical
section; the result is the computed values and the accumulator left behind. -/
def windowStep (A : FloatArith) (s : Accum) (nowUs : Nat) (hdDet : PinStatus) :
    WindowStats × Accum :=
  (computeWindow A (snapshot s) nowUs hdDet, resetWindow s)

/-! ## Reachable accumulator states -/

/-- Accumulator states reachable from power-on by edge interrupts and window
drains.  The index is the number of edge interrupts since the last drain, kept
below 2^32. -/
inductive Reachable : Nat → Accum → Prop where
  | init : Reachable 0 powerOn
  | edge (n : Nat) (s : Accum) (now : Nat) :
      Reachable n s → n + 1 < U32 → Reachable (n + 1) (vsyncISR s now)
  | drain (n : Nat) (s : Accum) : Reachable n s → Reachable 0 (resetWindow s)

/-- The window is empty: the accumulator fields hold their reset values. -/
def EmptyWindow (s : Accum) : Prop :=
  s.vsyncCount = 0 ∧ s.sumPeriodsUs = 0 ∧ s.minPeriodUs = 0xFFFFFFFF ∧ s.maxPeriodUs = 0

/-- The window holds periods, none below `kMinValidFramePeriodUs`. -/
def FilledWindow (s : Accum) : Prop :=
  s.vsyncCount ≥ 1 ∧ 5000 ≤ s.minPeriodUs ∧ s.minPeriodUs ≤ s.maxPeriodUs ∧
    s.sumPeriodsUs ≥ 5000 * s.vsyncCount

/-- Word-size bounds of the accumulator fields. -/
def InRange (s : Accum) : Prop :=
  s.vsyncCount < U32 ∧ s.sumPeriodsUs < U64 ∧ s.sumSqPeriodsUs2 < U64 ∧
    s.minPeriodUs ≤ kMinInit

/-- Accumulator `u` holds the window of `a` followed by the window of `b`. -/
def Merged (a b u : Accum) : Prop :=
  u.lastVsyncMicros = b.lastVsyncMicros ∧
  u.vsyncCount = (a.vsyncCount + b.vsyncCount) % U32 ∧
  u.sumPeriodsUs = (a.sumPeriodsUs + b.sumPeriodsUs) % U64 ∧
  u.sumSqPeriodsUs2 = (a.sumSqPeriodsUs2 + b.sumSqPeriodsUs2) % U64 ∧
  u.minPeriodUs = min a.minPeriodUs b.minPeriodUs ∧
  u.maxPeriodUs = max a.maxPeriodUs b.maxPeriodUs

/-! ## Periods folded by a run of edges -/

/-- The periods that `vsyncISR` folds into the window along a run of edges with
the given `micros()` readings, oldest first, when `prev` is the value of
`lastVsyncMicros` before the run: the two guards of `vsyncISR`. -/
def foldedPeriods (prev : Nat) : List Nat → List Nat
  | [] => []
  | now :: ts =>
    if prev ≠ 0 ∧ kMinValidFramePeriodUs ≤ sub32 now prev then
      sub32 now prev :: foldedPeriods now ts
    else foldedPeriods now ts

/-- Sum of the squares of a list of periods. -/
def sumSq (ps : List Nat) : Nat := (ps.map (fun p => p * p)).sum

/-- Reading of `micros()` at edge number `i` of a signal whose first edge is at
1 us and whose periods alternate between 16667 us and 16670 us. -/
def altTime (i : Nat) : Nat := (1 + 33337 * (i / 2) + 16667 * (i % 2)) % U32

/-- The first `n + 1` edges of the alternating signal, which span `n` periods. -/
def altTimes (n : Nat) : List Nat := (List.range' 0 (n + 1)).map altTime

/-- Period number `i` of the alternating signal. -/
def altPeriod (i : Nat) : Nat := if i % 2 = 0 then 16667 else 16670

/-- Sign behaviour of the floating-point operations on the values that
`loop()` feeds them: converting a positive integer gives at least 1, a quotient
of two values that are at least 1 is positive, and the square root of a
non-negative value is non-negative. -/
def SignLaws (A : FloatArith) : Prop :=
  (∀ n : Nat, 1 ≤ n → 1 ≤ A.ofUInt n) ∧
  (∀ a b : ℚ, 1 ≤ a → 1 ≤ b → 0 < A.div a b) ∧
  (∀ x : ℚ, 0 ≤ x → 0 ≤ A.sqrt x)

/-! ## Presentation -/

/-- The named colours of the LED library that the program uses. -/
inductive CRGB where
  | Black
  | Blue
  | Green
  | Red
  deriving DecidableEq, Repr

/-- Source function `colorForSync`. -/
def colorForSync (label : String) : CRGB :=
  if label = "TRI-LEVEL" then CRGB.Blue
  else if label = "BI-LEVEL" then CRGB.Green
  else CRGB.Red

/-- The scroll update at the end of a display refresh in `loop()`:
`scrollOffset++` on a `uint8_t`, then the reset when it exceeds
`text.length() * 6`. -/
def scrollStep (scrollOffset : Nat) (textLength : Nat) : Nat :=
  let scrollOffset := (scrollOffset + 1) % 256
  let maxOffset := textLength * 6
  if scrollOffset > maxOffset then 0 else scrollOffset

/-- Scroll offset after a run of refreshes showing texts of the given lengths. -/
def runScroll (scrollOffset : Nat) (lengths : List Nat) : Nat :=
  lengths.foldl scrollStep scrollOffset

/-- Source macro `MATRIX_WIDTH`. -/
def MATRIX_WIDTH : Int := 15

/-- Source macro `MATRIX_HEIGHT`. -/
def MATRIX_HEIGHT : Int := 7

/-- Source macro `NUM_LEDS`. -/
def NUM_LEDS : Int := MATRIX_WIDTH * MATRIX_HEIGHT

/-- Source function `XY`. -/
def XY (x y : Int) : Int := x * MATRIX_HEIGHT + y

/-- The indices of `leds` that `drawChar` assigns, in the order of its two
loops.  The glyph table `font7x5` of the header `font7x5.h` is a parameter:
`font7x5 g x` is column `x` of glyph `g`. -/
def drawCharWrites (font7x5 : Nat → Nat → Nat) (c : Int) (xOffset : Int) : List Int :=
  if c < 32 ∨ c > 126 then []
  else
    let bitmap := font7x5 (c - 32).toNat
    (List.range 5).flatMap fun x =>
      let col := bitmap x
      (List.range 7).filterMap fun y =>
        if col &&& (1 <<< y) ≠ 0 then
          let xPos := xOffset + (x : Int)
          if xPos ≥ 0 ∧ xPos < MATRIX_WIDTH then some (XY xPos (y : Int)) else none
        else none

/-- Source function `drawChar` on the frame buffer `leds`. -/
def drawChar (font7x5 : Nat → Nat → Nat) (c : Int) (xOffset : Int) (color : CRGB)
    (leds : List CRGB) : List CRGB :=
  (drawCharWrites font7x5 c xOffset).foldl (fun buf i => buf.set i.toNat color) leds

/-! ## Basic facts -/

theorem sub32_lt (a b : Nat) : sub32 a b < U32 := by
  unfold sub32 U32
  omega

theorem sub32_eq_emod (a b : Nat) :
    (sub32 a b : Int) = ((a : Int) - (b : Int)) % 4294967296 := by
  unfold sub32 U32
  omega

theorem locked_iff (lastEdgeUs nowUs : Nat) :
    locked lastEdgeUs nowUs = true ↔ lastEdgeUs ≠ 0 ∧ sub32 nowUs lastEdgeUs < 250000 := by
  simp [locked, kNoLockTimeoutUs]

theorem classify_of_unlocked (lastEdgeUs nowUs : Nat) (measuredFps : ℚ) (hdDet : PinStatus)
    (h : locked lastEdgeUs nowUs = false) :
    classify lastEdgeUs nowUs measuredFps hdDet = "NO LOCK" := by
  simp [classify, h]

theorem classify_of_slow (lastEdgeUs nowUs : Nat) (measuredFps : ℚ) (hdDet : PinStatus)
    (h : measuredFps < 1) :
    classify lastEdgeUs nowUs measuredFps hdDet = "NO LOCK" := by
  simp [classify, h]

theorem classify_of_locked (lastEdgeUs nowUs : Nat) (measuredFps : ℚ) (hdDet : PinStatus)
    (h : locked lastEdgeUs nowUs = true) (hf : 1 ≤ measuredFps) :
    classify lastEdgeUs nowUs measuredFps hdDet =
      if hdDet = PinStatus.LOW then "TRI-LEVEL" else "BI-LEVEL" := by
  have hf2 : ¬ measuredFps < 1 := not_lt.mpr hf
  simp [classify, h, hf2, triLevelDetected]

theorem label_ne_no_lock (hdDet : PinStatus) :
    (if hdDet = PinStatus.LOW then "TRI-LEVEL" else "BI-LEVEL") ≠ "NO LOCK" := by
  cases hdDet <;> decide

theorem vsyncISR_last (s : Accum) (now : Nat) : (vsyncISR s now).lastVsyncMicros = now := by
  unfold vsyncISR
  simp only []
  split_ifs <;> rfl

theorem vsyncISR_skip (s : Accum) (now : Nat)
    (h : s.lastVsyncMicros = 0 ∨ sub32 now s.lastVsyncMicros < kMinValidFramePeriodUs) :
    vsyncISR s now = { s with lastVsyncMicros := now } := by
  unfold vsyncISR
  simp only []
  rcases h with h | h
  · simp [h]
  · have h2 : ¬ sub32 now s.lastVsyncMicros ≥ kMinValidFramePeriodUs := by omega
    simp [h2]

theorem vsyncISR_take (s : Accum) (now : Nat) (h0 : s.lastVsyncMicros ≠ 0)
    (hp : kMinValidFramePeriodUs ≤ sub32 now s.lastVsyncMicros) :
    vsyncISR s now =
      { lastVsyncMicros := now
        vsyncCount := (s.vsyncCount + 1) % U32
        sumPeriodsUs := (s.sumPeriodsUs + sub32 now s.lastVsyncMicros) % U64
        sumSqPeriodsUs2 :=
          (s.sumSqPeriodsUs2 +
            (sub32 now s.lastVsyncMicros * sub32 now s.lastVsyncMicros) % U64) % U64
        minPeriodUs :=
          if sub32 now s.lastVsyncMicros < s.minPeriodUs then sub32 now s.lastVsyncMicros
          else s.minPeriodUs
        maxPeriodUs :=
          if sub32 now s.lastVsyncMicros > s.maxPeriodUs then sub32 now s.lastVsyncMicros
          else s.maxPeriodUs } := by
  unfold vsyncISR
  simp [h0, hp]

theorem sq_lt_U64 (p : Nat) (h : p < U32) : p * p < U64 := by
  have h1 : p ≤ 4294967295 := by
    unfold U32 at h
    omega
  have h2 : p * p ≤ 4294967295 * 4294967295 := Nat.mul_le_mul h1 h1
  unfold U64
  omega

/-- Strengthened window invariant carried along a reachable run. -/
theorem reachable_inv (n : Nat) (s : Accum) (h : Reachable n s) :
    s.vsyncCount ≤ n ∧ s.sumPeriodsUs ≤ 4294967295 * s.vsyncCount ∧
      (EmptyWindow s ∨ FilledWindow s) := by
  induction h with
  | init => exact ⟨le_refl 0, by decide, Or.inl ⟨rfl, rfl, rfl, rfl⟩⟩
  | drain n s _ _ =>
    refine ⟨le_refl 0, ?_, Or.inl ⟨rfl, rfl, rfl, rfl⟩⟩
    show (0 : Nat) ≤ 4294967295 * 0
    omega
  | edge n s now _ hn ih =>
    obtain ⟨hc, hs, hw⟩ := ih
    by_cases hskip : s.lastVsyncMicros = 0 ∨
        sub32 now s.lastVsyncMicros < kMinValidFramePeriodUs
    · rw [vsyncISR_skip s now hskip]
      exact ⟨Nat.le_succ_of_le hc, hs, hw⟩
    · have h0 : s.lastVsyncMicros ≠ 0 := fun h => hskip (Or.inl h)
      have hp : kMinValidFramePeriodUs ≤ sub32 now s.lastVsyncMicros := by
        by_contra hlt
        exact hskip (Or.inr (not_le.mp hlt))
      have hlt := sub32_lt now s.lastVsyncMicros
      rw [vsyncISR_take s now h0 hp]
      generalize sub32 now s.lastVsyncMicros = p at hp hlt
      simp only [EmptyWindow, FilledWindow, kMinValidFramePeriodUs, U32, U64] at *
      have hcnt : (s.vsyncCount + 1) % 4294967296 = s.vsyncCount + 1 :=
        Nat.mod_eq_of_lt (by omega)
      have hsum : (s.sumPeriodsUs + p) % 18446744073709551616 = s.sumPeriodsUs + p :=
        Nat.mod_eq_of_lt (by omega)
      refine ⟨?_, ?_, Or.inr ⟨?_, ?_, ?_, ?_⟩⟩
      · show (s.vsyncCount + 1) % 4294967296 ≤ n + 1
        omega
      · show (s.sumPeriodsUs + p) % 18446744073709551616 ≤
          4294967295 * ((s.vsyncCount + 1) % 4294967296)
        rw [hcnt, hsum]
        omega
      · show (s.vsyncCount + 1) % 4294967296 ≥ 1
        omega
      · show 5000 ≤ (if p < s.minPeriodUs then p else s.minPeriodUs)
        split_ifs <;> omega
      · show (if p < s.minPeriodUs then p else s.minPeriodUs) ≤
          (if p > s.maxPeriodUs then p else s.maxPeriodUs)
        split_ifs <;> omega
      · show (s.sumPeriodsUs + p) % 18446744073709551616 ≥
          5000 * ((s.vsyncCount + 1) % 4294967296)
        rw [hcnt, hsum]
        omega

theorem vsyncISR_inRange (s : Accum) (now : Nat) (h : InRange s) :
    InRange (vsyncISR s now) := by
  by_cases hskip : s.lastVsyncMicros = 0 ∨
      sub32 now s.lastVsyncMicros < kMinValidFramePeriodUs
  · rw [vsyncISR_skip s now hskip]
    exact h
  · have h0 : s.lastVsyncMicros ≠ 0 := fun h => hskip (Or.inl h)
    have hp : kMinValidFramePeriodUs ≤ sub32 now s.lastVsyncMicros := by
      by_contra hlt
      exact hskip (Or.inr (not_le.mp hlt))
    rw [vsyncISR_take s now h0 hp]
    obtain ⟨_, _, _, hmin⟩ := h
    refine ⟨Nat.mod_lt _ (by decide), Nat.mod_lt _ (by decide), Nat.mod_lt _ (by decide), ?_⟩
    show (if sub32 now s.lastVsyncMicros < s.minPeriodUs then sub32 now s.lastVsyncMicros
      else s.minPeriodUs) ≤ kMinInit
    split_ifs with hlt
    · exact le_trans (le_of_lt hlt) hmin
    · exact hmin

theorem runEdges_inRange (ts : List Nat) (s : Accum) (h : InRange s) :
    InRange (runEdges s ts) := by
  induction ts generalizing s with
  | nil => exact h
  | cons t ts ih => exact ih (vsyncISR s t) (vsyncISR_inRange s t h)

theorem resetWindow_inRange (s : Accum) : InRange (resetWindow s) := by
  refine ⟨?_, ?_, ?_, le_refl _⟩
  · show 0 < U32
    decide
  · show 0 < U64
    decide
  · show 0 < U64
    decide

theorem runEdges_append (s : Accum) (xs ys : List Nat) :
    runEdges s (xs ++ ys) = runEdges (runEdges s xs) ys := by
  simp [runEdges, List.foldl_append]

/-- One edge keeps two accumulators merged: the window started at the drain and
the window that was never drained see the same previous edge and so take or
skip the same period. -/
theorem vsyncISR_merged (a b u : Accum) (now : Nat) (h : Merged a b u) :
    Merged a (vsyncISR b now) (vsyncISR u now) := by
  obtain ⟨hl, hc, hs, hq, hmn, hmx⟩ := h
  by_cases hskip : b.lastVsyncMicros = 0 ∨
      sub32 now b.lastVsyncMicros < kMinValidFramePeriodUs
  · rw [vsyncISR_skip b now hskip, vsyncISR_skip u now (hl ▸ hskip)]
    exact ⟨rfl, hc, hs, hq, hmn, hmx⟩
  · have h0 : b.lastVsyncMicros ≠ 0 := fun h => hskip (Or.inl h)
    have hp : kMinValidFramePeriodUs ≤ sub32 now b.lastVsyncMicros := by
      by_contra hlt
      exact hskip (Or.inr (not_le.mp hlt))
    rw [vsyncISR_take b now h0 hp, vsyncISR_take u now (hl ▸ h0) (hl ▸ hp), hl]
    generalize sub32 now b.lastVsyncMicros = p
    generalize (p * p) % U64 = q
    simp only [Merged, U32, U64] at *
    refine ⟨trivial, ?_, ?_, ?_, ?_, ?_⟩
    · rw [hc]
      omega
    · rw [hs]
      omega
    · rw [hq]
      omega
    · rw [hmn]
      split_ifs <;> omega
    · rw [hmx]
      split_ifs <;> omega

theorem runEdges_merged (ts : List Nat) (a b u : Accum) (h : Merged a b u) :
    Merged a (runEdges b ts) (runEdges u ts) := by
  induction ts generalizing b u with
  | nil => exact h
  | cons t ts ih => exact ih (vsyncISR b t) (vsyncISR u t) (vsyncISR_merged a b u t h)

theorem merged_resetWindow (a : Accum) (h : InRange a) : Merged a (resetWindow a) a := by
  obtain ⟨hc, hs, hq, hm⟩ := h
  simp only [Merged, resetWindow, U32, U64, kMinInit] at *
  refine ⟨trivial, ?_, ?_, ?_, ?_, ?_⟩
  · omega
  · omega
  · omega
  · omega
  · omega

theorem deriveStats_empty (A : FloatArith) (w : Snapshot) (h : w.count = 0 ∨ w.sumP = 0) :
    deriveStats A w = { fps := 0, meanPeriodUs := 0, rmsJitterUs := 0, ppJitterUs := 0 } := by
  have hn : ¬ (w.count ≥ 1 ∧ w.sumP > 0) := by omega
  simp only [deriveStats, if_neg hn]

theorem computeWindow_empty (A : FloatArith) (w : Snapshot) (nowUs : Nat) (hdDet : PinStatus)
    (h : w.count = 0 ∨ w.sumP = 0) :
    (computeWindow A w nowUs hdDet).fps = 0 ∧
    (computeWindow A w nowUs hdDet).meanPeriodUs = 0 ∧
    (computeWindow A w nowUs hdDet).rmsJitterUs = 0 ∧
    (computeWindow A w nowUs hdDet).ppJitterUs = 0 ∧
    (computeWindow A w nowUs hdDet).jitterPpm = 0 ∧
    (computeWindow A w nowUs hdDet).measuredFps = 0 ∧
    (computeWindow A w nowUs hdDet).syncLabel = "NO LOCK" := by
  have hd := deriveStats_empty A w h
  refine ⟨?_, ?_, ?_, ?_, ?_, ?_, ?_⟩
  · simp only [computeWindow, hd]
  · simp only [computeWindow, hd]
  · simp only [computeWindow, hd]
  · simp only [computeWindow, hd]
  · simp only [computeWindow, hd, gt_iff_lt, lt_self_iff_false, if_false]
  · simp only [computeWindow, hd, A.toFloat_zero]
  · simp only [computeWindow, hd, A.toFloat_zero]
    exact classify_of_slow _ _ _ _ (by norm_num)

/-! ## Lock classification -/

/-- C1: the label assigned in `loop()` is "NO LOCK" exactly when the last edge
time is the sentinel 0, or the wrapped age `(nowUs - lastEdgeUs) mod 2^32` is at
least 250000, or the measured fps is below 1.0; in every other case it is
"TRI-LEVEL" when the format-detect pin reads LOW and "BI-LEVEL" when it reads
HIGH. -/
theorem classify_spec (lastEdgeUs nowUs : Nat) (measuredFps : ℚ) (hdDet : PinStatus) :
    (classify lastEdgeUs nowUs measuredFps hdDet = "NO LOCK" ↔
      (lastEdgeUs = 0 ∨ ((nowUs : Int) - (lastEdgeUs : Int)) % 4294967296 ≥ 250000 ∨
        measuredFps < 1)) ∧
    (¬ (lastEdgeUs = 0 ∨ ((nowUs : Int) - (lastEdgeUs : Int)) % 4294967296 ≥ 250000 ∨
        measuredFps < 1) →
      (hdDet = PinStatus.LOW → classify lastEdgeUs nowUs measuredFps hdDet = "TRI-LEVEL") ∧
      (hdDet = PinStatus.HIGH → classify lastEdgeUs nowUs measuredFps hdDet = "BI-LEVEL")) := by
  have hsub := sub32_eq_emod nowUs lastEdgeUs
  have hlock : locked lastEdgeUs nowUs = true ↔
      ¬ (lastEdgeUs = 0 ∨ ((nowUs : Int) - (lastEdgeUs : Int)) % 4294967296 ≥ 250000) := by
    simp only [locked, kNoLockTimeoutUs, Bool.and_eq_true, decide_eq_true_eq]
    omega
  by_cases hl : locked lastEdgeUs nowUs = true
  · have hl2 := hlock.mp hl
    by_cases hf : measuredFps < 1
    · have hc : classify lastEdgeUs nowUs measuredFps hdDet = "NO LOCK" := by
        simp [classify, hf]
      exact ⟨⟨fun _ => Or.inr (Or.inr hf), fun _ => hc⟩,
        fun hn => absurd (Or.inr (Or.inr hf)) hn⟩
    · have hP : ¬ (lastEdgeUs = 0 ∨
          ((nowUs : Int) - (lastEdgeUs : Int)) % 4294967296 ≥ 250000 ∨ measuredFps < 1) := by
        rintro (h | h | h)
        · exact hl2 (Or.inl h)
        · exact hl2 (Or.inr h)
        · exact hf h
      cases hdDet
      · have hc : classify lastEdgeUs nowUs measuredFps PinStatus.LOW = "TRI-LEVEL" := by
          simp [classify, hl, hf, triLevelDetected]
        refine ⟨⟨fun h => ?_, fun h => absurd h hP⟩, fun _ => ⟨fun _ => hc, fun h => ?_⟩⟩
        · rw [hc] at h
          exact absurd h (by decide)
        · exact absurd h (by decide)
      · have hc : classify lastEdgeUs nowUs measuredFps PinStatus.HIGH = "BI-LEVEL" := by
          simp [classify, hl, hf, triLevelDetected]
        refine ⟨⟨fun h => ?_, fun h => absurd h hP⟩, fun _ => ⟨fun h => ?_, fun _ => hc⟩⟩
        · rw [hc] at h
          exact absurd h (by decide)
        · exact absurd h (by decide)
  · have hl2 : lastEdgeUs = 0 ∨ ((nowUs : Int) - (lastEdgeUs : Int)) % 4294967296 ≥ 250000 := by
      by_contra hc
      exact hl (hlock.mpr hc)
    have hl3 : locked lastEdgeUs nowUs = false := by simpa using hl
    have hc : classify lastEdgeUs nowUs measuredFps hdDet = "NO LOCK" := by
      simp [classify, hl3]
    have hP : lastEdgeUs = 0 ∨
        ((nowUs : Int) - (lastEdgeUs : Int)) % 4294967296 ≥ 250000 ∨ measuredFps < 1 := by
      rcases hl2 with h | h
      · exact Or.inl h
      · exact Or.inr (Or.inl h)
    exact ⟨⟨fun _ => hP, fun _ => hc⟩, fun hn => absurd hP hn⟩

/-- Witness for C1: a 60 fps signal whose last edge is 1000 us old is labelled
by the format-detect level. -/
theorem classify_spec_witness :
    classify 5000 6000 60 PinStatus.LOW = "TRI-LEVEL" ∧
    classify 5000 6000 60 PinStatus.HIGH = "BI-LEVEL" :=
  ⟨((classify_spec 5000 6000 60 PinStatus.LOW).2 (by norm_num)).1 rfl,
   ((classify_spec 5000 6000 60 PinStatus.HIGH).2 (by norm_num)).2 rfl⟩

/-- C2 (counterexample): a window holding one period of 1000000 us has a
measured fps of exactly 1.0, its last edge is 1 us old, and the label is
"TRI-LEVEL", not "NO LOCK". -/
theorem fps_one_no_lock_counterexample :
    (snapshot (runEdges powerOn [1, 1000001])).count = 1 ∧
    (snapshot (runEdges powerOn [1, 1000001])).sumP = 1000000 ∧
    (computeWindow exactArith (snapshot (runEdges powerOn [1, 1000001])) 1000002
      PinStatus.LOW).measuredFps = 1 ∧
    (1000001 ≠ 0 ∧ sub32 1000002 1000001 < kNoLockTimeoutUs) ∧
    classify 1000001 1000002 1 PinStatus.LOW = "TRI-LEVEL" ∧
    classify 1000001 1000002 1 PinStatus.LOW ≠ "NO LOCK" := by
  have hr : runEdges powerOn [1, 1000001] =
      { lastVsyncMicros := 1000001, vsyncCount := 1, sumPeriodsUs := 1000000,
        sumSqPeriodsUs2 := 1000000000000, minPeriodUs := 1000000,
        maxPeriodUs := 1000000 } := by
    decide
  have hc : classify 1000001 1000002 1 PinStatus.LOW = "TRI-LEVEL" := by
    rw [classify_of_locked _ _ _ _ (by decide) (le_refl 1)]
    rfl
  refine ⟨by rw [hr]; rfl, by rw [hr]; rfl, ?_, by decide, hc, ?_⟩
  · rw [hr]
    simp [computeWindow, deriveStats, snapshot, exactArith, kMinInit]
  · rw [hc]
    decide

/-- C2 (amended): for every non-sentinel last edge time whose age is below the
no-lock timeout and every format-detect level, a measured fps of exactly 1.0 is
locked (the label is "TRI-LEVEL" on LOW and "BI-LEVEL" on HIGH); the label is
"NO LOCK" exactly when the measured fps is strictly below 1.0. -/
theorem classify_fps_boundary (lastEdgeUs nowUs : Nat) (hdDet : PinStatus)
    (h0 : lastEdgeUs ≠ 0) (hage : sub32 nowUs lastEdgeUs < kNoLockTimeoutUs) :
    classify lastEdgeUs nowUs 1 hdDet =
      (if hdDet = PinStatus.LOW then "TRI-LEVEL" else "BI-LEVEL") ∧
    ∀ measuredFps : ℚ,
      (classify lastEdgeUs nowUs measuredFps hdDet = "NO LOCK" ↔ measuredFps < 1) := by
  have hl : locked lastEdgeUs nowUs = true := (locked_iff _ _).mpr ⟨h0, hage⟩
  refine ⟨classify_of_locked _ _ _ _ hl (le_refl 1), fun f => ⟨fun h => ?_, fun h => ?_⟩⟩
  · by_contra hf
    rw [classify_of_locked _ _ _ _ hl (not_lt.mp hf)] at h
    exact label_ne_no_lock hdDet h
  · exact classify_of_slow _ _ _ _ h

/-- Witness for the amended C2: last edge at 5000 us, read at 6000 us. -/
theorem classify_fps_boundary_witness :
    (5000 ≠ 0 ∧ sub32 6000 5000 < kNoLockTimeoutUs) ∧
    classify 5000 6000 1 PinStatus.HIGH = "BI-LEVEL" :=
  ⟨by decide, (classify_fps_boundary 5000 6000 PinStatus.HIGH (by decide) (by decide)).1⟩

/-- C3: with a non-sentinel last edge time, an age `(nowUs - lastEdgeUs) mod 2^32`
of exactly 250000 gives "NO LOCK" for every fps and level, and an age of 249999
with fps at least 1.0 gives a label other than "NO LOCK". -/
theorem classify_timeout_boundary (lastEdgeUs nowUs : Nat) (measuredFps : ℚ)
    (hdDet : PinStatus) (h0 : lastEdgeUs ≠ 0) :
    (sub32 nowUs lastEdgeUs = 250000 →
      classify lastEdgeUs nowUs measuredFps hdDet = "NO LOCK") ∧
    (sub32 nowUs lastEdgeUs = 249999 → 1 ≤ measuredFps →
      classify lastEdgeUs nowUs measuredFps hdDet ≠ "NO LOCK") := by
  constructor
  · intro h
    apply classify_of_unlocked
    have hn : ¬ locked lastEdgeUs nowUs = true := by
      rw [locked_iff]
      omega
    simpa using hn
  · intro h hf
    have hl : locked lastEdgeUs nowUs = true := (locked_iff _ _).mpr ⟨h0, by omega⟩
    rw [classify_of_locked _ _ _ _ hl hf]
    exact label_ne_no_lock hdDet

/-- Witness for C3: last edge at 1 us, read at 250001 us and at 250000 us. -/
theorem classify_timeout_boundary_witness :
    classify 1 250001 60 PinStatus.LOW = "NO LOCK" ∧
    classify 1 250000 1 PinStatus.LOW ≠ "NO LOCK" :=
  ⟨(classify_timeout_boundary 1 250001 60 PinStatus.LOW (by decide)).1 (by decide),
   (classify_timeout_boundary 1 250000 1 PinStatus.LOW (by decide)).2 (by decide)
     (le_refl 1)⟩

/-! ## Edge capture -/

/-- C4: an edge whose period `(now - lastVsyncMicros) mod 2^32` is below
`kMinValidFramePeriodUs` (5000) leaves `vsyncCount`, `sumPeriodsUs`,
`sumSqPeriodsUs2`, `minPeriodUs` and `maxPeriodUs` unchanged. -/
theorem vsyncISR_noise_rejected (s : Accum) (now : Nat)
    (h : sub32 now s.lastVsyncMicros < kMinValidFramePeriodUs) :
    (vsyncISR s now).vsyncCount = s.vsyncCount ∧
    (vsyncISR s now).sumPeriodsUs = s.sumPeriodsUs ∧
    (vsyncISR s now).sumSqPeriodsUs2 = s.sumSqPeriodsUs2 ∧
    (vsyncISR s now).minPeriodUs = s.minPeriodUs ∧
    (vsyncISR s now).maxPeriodUs = s.maxPeriodUs := by
  rw [vsyncISR_skip s now (Or.inr h)]
  exact ⟨rfl, rfl, rfl, rfl, rfl⟩

/-- Witness for C4: an edge 100 us after the previous one, on a window that
already holds one period. -/
theorem vsyncISR_noise_rejected_witness :
    sub32 17767 17667 < kMinValidFramePeriodUs ∧
    (vsyncISR (runEdges powerOn [1000, 17667]) 17767).vsyncCount = 1 ∧
    (vsyncISR (runEdges powerOn [1000, 17667]) 17767).sumPeriodsUs = 16667 :=
  ⟨by decide,
   (vsyncISR_noise_rejected (runEdges powerOn [1000, 17667]) 17767 (by decide)).1.trans
     (by decide),
   (vsyncISR_noise_rejected (runEdges powerOn [1000, 17667]) 17767 (by decide)).2.1.trans
     (by decide)⟩

/-- C5: with a previous edge (`lastVsyncMicros != 0`) and a period
`(now - lastVsyncMicros) mod 2^32` of at least 5000, one edge gives
`vsyncCount + 1` mod 2^32, `sumPeriodsUs + period` and
`sumSqPeriodsUs2 + period^2` mod 2^64, the minimum and the maximum with the
period; and in every case `lastVsyncMicros` becomes `now`. -/
theorem vsyncISR_fold (s : Accum) (now : Nat) :
    (s.lastVsyncMicros ≠ 0 → 5000 ≤ sub32 now s.lastVsyncMicros →
      (vsyncISR s now).vsyncCount = (s.vsyncCount + 1) % 2 ^ 32 ∧
      (vsyncISR s now).sumPeriodsUs =
        (s.sumPeriodsUs + sub32 now s.lastVsyncMicros) % 2 ^ 64 ∧
      (vsyncISR s now).sumSqPeriodsUs2 =
        (s.sumSqPeriodsUs2 + sub32 now s.lastVsyncMicros ^ 2) % 2 ^ 64 ∧
      (vsyncISR s now).minPeriodUs = min s.minPeriodUs (sub32 now s.lastVsyncMicros) ∧
      (vsyncISR s now).maxPeriodUs = max s.maxPeriodUs (sub32 now s.lastVsyncMicros)) ∧
    (vsyncISR s now).lastVsyncMicros = now := by
  refine ⟨fun h0 hp => ?_, vsyncISR_last s now⟩
  rw [vsyncISR_take s now h0 hp]
  have hsq := sq_lt_U64 _ (sub32_lt now s.lastVsyncMicros)
  refine ⟨rfl, rfl, ?_, ?_, ?_⟩
  · show (s.sumSqPeriodsUs2 +
        (sub32 now s.lastVsyncMicros * sub32 now s.lastVsyncMicros) % U64) % U64 = _
    rw [Nat.mod_eq_of_lt hsq, sq]
    rfl
  · show (if sub32 now s.lastVsyncMicros < s.minPeriodUs then sub32 now s.lastVsyncMicros
        else s.minPeriodUs) = _
    split_ifs with hlt
    · exact (min_eq_right (le_of_lt hlt)).symm
    · exact (min_eq_left (not_lt.mp hlt)).symm
  · show (if sub32 now s.lastVsyncMicros > s.maxPeriodUs then sub32 now s.lastVsyncMicros
        else s.maxPeriodUs) = _
    split_ifs with hgt
    · exact (max_eq_right (le_of_lt hgt)).symm
    · exact (max_eq_left (not_lt.mp hgt)).symm

/-- Witness for C5: a second period of 16670 us folded after one of 16667 us. -/
theorem vsyncISR_fold_witness :
    (vsyncISR (runEdges powerOn [1000, 17667]) 34337).vsyncCount = 2 ∧
    (vsyncISR (runEdges powerOn [1000, 17667]) 34337).sumPeriodsUs = 33337 :=
  ⟨((vsyncISR_fold (runEdges powerOn [1000, 17667]) 34337).1 (by decide) (by decide)).1.trans
     (by decide),
   ((vsyncISR_fold (runEdges powerOn [1000, 17667]) 34337).1 (by decide)
     (by decide)).2.1.trans (by decide)⟩

/-- C6 (counterexample): a first edge stamped `micros() == 0` followed by an
edge 16667 us later leaves the window empty, because the stored 0 is read as
"no previous edge". -/
theorem first_edge_at_zero_counterexample :
    5000 ≤ sub32 16667 0 ∧
    (runEdges powerOn [0, 16667]).vsyncCount = 0 ∧
    (runEdges powerOn [0, 16667]).sumPeriodsUs = 0 ∧
    (runEdges powerOn [0, 16667]).vsyncCount ≠ 1 := by
  decide

/-- C6 (amended): for 32-bit timestamps `t1 != 0` and `t2` with
`p = (t2 - t1) mod 2^32 >= 5000`, an edge at `t1` and then one at `t2` from the
power-on state leave `vsyncCount == 1`, `sumPeriodsUs == p`,
`sumSqPeriodsUs2 == p^2` and `minPeriodUs == maxPeriodUs == p`. -/
theorem two_edges_fold (t1 t2 : Nat) (hne : t1 ≠ 0)
    (hp : kMinValidFramePeriodUs ≤ sub32 t2 t1) :
    (runEdges powerOn [t1, t2]).vsyncCount = 1 ∧
    (runEdges powerOn [t1, t2]).sumPeriodsUs = sub32 t2 t1 ∧
    (runEdges powerOn [t1, t2]).sumSqPeriodsUs2 = sub32 t2 t1 ^ 2 ∧
    (runEdges powerOn [t1, t2]).minPeriodUs = sub32 t2 t1 ∧
    (runEdges powerOn [t1, t2]).maxPeriodUs = sub32 t2 t1 := by
  have hfirst : vsyncISR powerOn t1 = { powerOn with lastVsyncMicros := t1 } :=
    vsyncISR_skip powerOn t1 (Or.inl rfl)
  have hlt := sub32_lt t2 t1
  have hsq := sq_lt_U64 _ hlt
  have hrun : runEdges powerOn [t1, t2] =
      vsyncISR { powerOn with lastVsyncMicros := t1 } t2 := by
    simp [runEdges, hfirst]
  rw [hrun, vsyncISR_take _ t2 hne hp]
  simp only [powerOn, kMinInit, kMinValidFramePeriodUs, U32, U64] at *
  refine ⟨by norm_num, ?_, ?_, ?_, ?_⟩
  · show (0 + sub32 t2 t1) % 18446744073709551616 = sub32 t2 t1
    omega
  · show (0 + (sub32 t2 t1 * sub32 t2 t1) % 18446744073709551616) % 18446744073709551616 = _
    rw [sq]
    omega
  · show (if sub32 t2 t1 < 4294967295 then sub32 t2 t1 else 4294967295) = sub32 t2 t1
    split_ifs <;> omega
  · show (if sub32 t2 t1 > 0 then sub32 t2 t1 else 0) = sub32 t2 t1
    split_ifs <;> omega

/-- Witness for the amended C6: edges at 1000 us and 17667 us. -/
theorem two_edges_fold_witness :
    (1000 ≠ 0 ∧ kMinValidFramePeriodUs ≤ sub32 17667 1000) ∧
    (runEdges powerOn [1000, 17667]).vsyncCount = 1 :=
  ⟨by decide, (two_edges_fold 1000 17667 (by decide) (by decide)).1⟩

/-- C7: in every accumulator state reachable from power-on by edge interrupts
and drains, with fewer than 2^32 edges per window, either the window is empty
(`vsyncCount == 0`, `sumPeriodsUs == 0`, `minPeriodUs == 0xFFFFFFFF`,
`maxPeriodUs == 0`) or `vsyncCount >= 1`, `5000 <= minPeriodUs <= maxPeriodUs`
and `sumPeriodsUs >= 5000 * vsyncCount`. -/
theorem retained_period_invariant (n : Nat) (s : Accum) (h : Reachable n s) :
    (s.vsyncCount = 0 ∧ s.sumPeriodsUs = 0 ∧ s.minPeriodUs = 0xFFFFFFFF ∧
        s.maxPeriodUs = 0) ∨
    (s.vsyncCount ≥ 1 ∧ kMinValidFramePeriodUs ≤ s.minPeriodUs ∧
        s.minPeriodUs ≤ s.maxPeriodUs ∧
        s.sumPeriodsUs ≥ kMinValidFramePeriodUs * s.vsyncCount) :=
  (reachable_inv n s h).2.2

/-- Witness for C7: two edges 16667 us apart after power-on. -/
theorem retained_period_invariant_witness :
    Reachable 2 (vsyncISR (vsyncISR powerOn 1000) 17667) ∧
    ((vsyncISR (vsyncISR powerOn 1000) 17667).vsyncCount ≥ 1 ∧
      kMinValidFramePeriodUs ≤ (vsyncISR (vsyncISR powerOn 1000) 17667).minPeriodUs) := by
  have hr : Reachable 2 (vsyncISR (vsyncISR powerOn 1000) 17667) :=
    Reachable.edge 1 _ 17667 (Reachable.edge 0 _ 1000 Reachable.init (by decide))
      (by decide)
  refine ⟨hr, ?_⟩
  rcases retained_period_invariant 2 _ hr with h | h
  · exact absurd h.1 (by decide)
  · exact ⟨h.1, h.2.1⟩

/-! ## Window aggregator -/

/-- C8: for edge timestamps `xs ++ ys` applied to a reset accumulator (any
`lastVsyncMicros`), draining after `xs` and then processing `ys` gives counts,
sums and sums of squares that add up (modulo the word size) to those of the
undrained run, the same maximum and raw minimum, and the same final
`lastVsyncMicros`; the drain never changes `lastVsyncMicros`. -/
theorem drain_boundary (s : Accum) (xs ys : List Nat) :
    ((drain (runEdges (resetWindow s) xs)).1.count +
        (runEdges (drain (runEdges (resetWindow s) xs)).2 ys).vsyncCount) % 2 ^ 32 =
      (runEdges (resetWindow s) (xs ++ ys)).vsyncCount ∧
    ((drain (runEdges (resetWindow s) xs)).1.sumP +
        (runEdges (drain (runEdges (resetWindow s) xs)).2 ys).sumPeriodsUs) % 2 ^ 64 =
      (runEdges (resetWindow s) (xs ++ ys)).sumPeriodsUs ∧
    ((drain (runEdges (resetWindow s) xs)).1.sumSqP +
        (runEdges (drain (runEdges (resetWindow s) xs)).2 ys).sumSqPeriodsUs2) % 2 ^ 64 =
      (runEdges (resetWindow s) (xs ++ ys)).sumSqPeriodsUs2 ∧
    max (drain (runEdges (resetWindow s) xs)).1.maxP
        (runEdges (drain (runEdges (resetWindow s) xs)).2 ys).maxPeriodUs =
      (runEdges (resetWindow s) (xs ++ ys)).maxPeriodUs ∧
    min (runEdges (resetWindow s) xs).minPeriodUs
        (runEdges (drain (runEdges (resetWindow s) xs)).2 ys).minPeriodUs =
      (runEdges (resetWindow s) (xs ++ ys)).minPeriodUs ∧
    (runEdges (drain (runEdges (resetWindow s) xs)).2 ys).lastVsyncMicros =
      (runEdges (resetWindow s) (xs ++ ys)).lastVsyncMicros ∧
    (∀ t : Accum, (drain t).2.lastVsyncMicros = t.lastVsyncMicros) := by
  have hr := runEdges_inRange xs (resetWindow s) (resetWindow_inRange s)
  have hm := runEdges_merged ys _ _ _ (merged_resetWindow _ hr)
  rw [runEdges_append]
  obtain ⟨hl, hc, hs, hq, hmn, hmx⟩ := hm
  exact ⟨hc.symm, hs.symm, hq.symm, hmx.symm, hmn.symm, hl.symm, fun _ => rfl⟩

/-- C9: a second snapshot-and-reset with no edge in between yields count, sum,
sum of squares, reported minimum and maximum all 0, hence fps, mean period, RMS
jitter, peak-to-peak jitter and ppm jitter all 0, and leaves the accumulator as
the first drain left it. -/
theorem drain_idempotent (A : FloatArith) (s : Accum) (nowUs : Nat) (hdDet : PinStatus) :
    (drain (drain s).2).1.count = 0 ∧
    (drain (drain s).2).1.sumP = 0 ∧
    (drain (drain s).2).1.sumSqP = 0 ∧
    (drain (drain s).2).1.minP = 0 ∧
    (drain (drain s).2).1.maxP = 0 ∧
    (computeWindow A (drain (drain s).2).1 nowUs hdDet).fps = 0 ∧
    (computeWindow A (drain (drain s).2).1 nowUs hdDet).meanPeriodUs = 0 ∧
    (computeWindow A (drain (drain s).2).1 nowUs hdDet).rmsJitterUs = 0 ∧
    (computeWindow A (drain (drain s).2).1 nowUs hdDet).ppJitterUs = 0 ∧
    (computeWindow A (drain (drain s).2).1 nowUs hdDet).jitterPpm = 0 ∧
    (drain (drain s).2).2 = (drain s).2 := by
  have hc : (drain (drain s).2).1.count = 0 := rfl
  have hw := computeWindow_empty A (drain (drain s).2).1 nowUs hdDet (Or.inl hc)
  refine ⟨rfl, rfl, rfl, ?_, rfl, hw.1, hw.2.1, hw.2.2.1, hw.2.2.2.1, hw.2.2.2.2.1, rfl⟩
  show (if kMinInit = kMinInit then 0 else kMinInit) = 0
  simp

/-- C10: for every snapshot with `count == 0` or `sum == 0`, and every `nowUs`,
`lastEdgeUs` and format-detect level, fps, mean period, RMS jitter,
peak-to-peak jitter and ppm jitter are 0 and the label is "NO LOCK"; with no
edge ever received the label is "NO LOCK" and the fps is 0. -/
theorem empty_window_no_lock (A : FloatArith) (w : Snapshot) (nowUs : Nat)
    (hdDet : PinStatus) :
    (w.count = 0 ∨ w.sumP = 0 →
      (computeWindow A w nowUs hdDet).fps = 0 ∧
      (computeWindow A w nowUs hdDet).meanPeriodUs = 0 ∧
      (computeWindow A w nowUs hdDet).rmsJitterUs = 0 ∧
      (computeWindow A w nowUs hdDet).ppJitterUs = 0 ∧
      (computeWindow A w nowUs hdDet).jitterPpm = 0 ∧
      (computeWindow A w nowUs hdDet).syncLabel = "NO LOCK") ∧
    ((windowStep A powerOn nowUs hdDet).1.syncLabel = "NO LOCK" ∧
      (windowStep A powerOn nowUs hdDet).1.fps = 0 ∧
      (windowStep A powerOn nowUs hdDet).1.measuredFps = 0 ∧
      (windowStep A powerOn nowUs hdDet).2 = powerOn) := by
  constructor
  · intro h
    have hw := computeWindow_empty A w nowUs hdDet h
    exact ⟨hw.1, hw.2.1, hw.2.2.1, hw.2.2.2.1, hw.2.2.2.2.1, hw.2.2.2.2.2.2⟩
  · have hw := computeWindow_empty A (snapshot powerOn) nowUs hdDet (Or.inl rfl)
    exact ⟨hw.2.2.2.2.2.2, hw.1, hw.2.2.2.2.2.1, rfl⟩

/-- Witness for C10: an empty window whose last edge is only 1 us old is
labelled "NO LOCK". -/
theorem empty_window_no_lock_witness :
    (computeWindow exactArith
      { count := 0, sumP := 0, sumSqP := 0, minP := 0, maxP := 0, lastEdgeUs := 5000 }
      5001 PinStatus.LOW).syncLabel = "NO LOCK" :=
  ((empty_window_no_lock exactArith
    { count := 0, sumP := 0, sumSqP := 0, minP := 0, maxP := 0, lastEdgeUs := 5000 }
    5001 PinStatus.LOW).1 (Or.inl rfl)).2.2.2.2.2

/-! ## First edge, presentation and scroll -/

/-- C15: `colorForSync` maps "TRI-LEVEL" to blue, "BI-LEVEL" to green, and
"NO LOCK" and every other label to red; the three colours are pairwise
distinct, so on the three lock labels the mapping is one-to-one. -/
theorem colorForSync_spec :
    colorForSync "TRI-LEVEL" = CRGB.Blue ∧
    colorForSync "BI-LEVEL" = CRGB.Green ∧
    colorForSync "NO LOCK" = CRGB.Red ∧
    (∀ label : String, label ≠ "TRI-LEVEL" → label ≠ "BI-LEVEL" →
      colorForSync label = CRGB.Red) ∧
    (colorForSync "TRI-LEVEL" ≠ colorForSync "BI-LEVEL" ∧
      colorForSync "TRI-LEVEL" ≠ colorForSync "NO LOCK" ∧
      colorForSync "BI-LEVEL" ≠ colorForSync "NO LOCK") ∧
    (∀ (lastEdgeUs nowUs : Nat) (fps1 fps2 : ℚ) (hd1 hd2 : PinStatus),
      colorForSync (classify lastEdgeUs nowUs fps1 hd1) =
        colorForSync (classify lastEdgeUs nowUs fps2 hd2) →
      classify lastEdgeUs nowUs fps1 hd1 = classify lastEdgeUs nowUs fps2 hd2) := by
  have h1 : colorForSync "TRI-LEVEL" = CRGB.Blue := by decide
  have h2 : colorForSync "BI-LEVEL" = CRGB.Green := by decide
  have h3 : colorForSync "NO LOCK" = CRGB.Red := by decide
  have hcases : ∀ (l n : Nat) (f : ℚ) (h : PinStatus),
      classify l n f h = "NO LOCK" ∨ classify l n f h = "TRI-LEVEL" ∨
        classify l n f h = "BI-LEVEL" := by
    intro l n f h
    unfold classify
    split_ifs
    · exact Or.inl rfl
    · exact Or.inr (Or.inl rfl)
    · exact Or.inr (Or.inr rfl)
  refine ⟨h1, h2, h3, ?_, ⟨?_, ?_, ?_⟩, ?_⟩
  · intro label ht hb
    simp [colorForSync, ht, hb]
  · rw [h1, h2]
    decide
  · rw [h1, h3]
    decide
  · rw [h2, h3]
    decide
  · intro l n f1 f2 d1 d2 h
    rcases hcases l n f1 d1 with a | a | a <;> rcases hcases l n f2 d2 with b | b | b <;>
      rw [a, b] at h ⊢ <;> first | rfl | (simp [h1, h2, h3] at h)

/-- Witness for C15: a label that is neither of the two locked labels. -/
theorem colorForSync_spec_witness : colorForSync "UNKNOWN" = CRGB.Red :=
  colorForSync_spec.2.2.2.1 "UNKNOWN" (by decide) (by decide)

/-- C16: at a refresh with a text of length `L <= 31` and an 8-bit offset `s`,
the new offset is `s + 1` if `s + 1 <= 6 * L` and 0 otherwise; starting from 0,
after every refresh the offset is at most `6 * L` for the text just shown, also
when the text lengths change between refreshes, and the increment never wraps
the 8-bit counter. -/
theorem scroll_offset_spec :
    (∀ s L : Nat, s < 256 → L ≤ 31 →
      scrollStep s L = if s + 1 ≤ 6 * L then s + 1 else 0) ∧
    (∀ (lengths : List Nat) (L : Nat), (∀ l ∈ lengths, l ≤ 31) → L ≤ 31 →
      runScroll 0 (lengths ++ [L]) ≤ 6 * L ∧
      runScroll 0 lengths + 1 < 256 ∧
      runScroll 0 (lengths ++ [L]) = scrollStep (runScroll 0 lengths) L) := by
  have hstep : ∀ s L : Nat, s < 256 → L ≤ 31 →
      scrollStep s L = if s + 1 ≤ 6 * L then s + 1 else 0 := by
    intro s L hs hL
    unfold scrollStep
    simp only []
    split_ifs <;> omega
  have hbound : ∀ (lengths : List Nat), (∀ l ∈ lengths, l ≤ 31) →
      runScroll 0 lengths ≤ 186 := by
    intro lengths
    induction lengths using List.reverseRecOn with
    | nil => intro _; decide
    | append_singleton ls l ih =>
      intro h
      have hl : l ≤ 31 := h l (by simp)
      have hr := ih (fun x hx => h x (by simp [hx]))
      simp only [runScroll, List.foldl_append, List.foldl_cons, List.foldl_nil] at hr ⊢
      rw [hstep _ _ (by omega) hl]
      split_ifs <;> omega
  refine ⟨hstep, fun lengths L hls hL => ?_⟩
  have hr := hbound lengths hls
  have heq : runScroll 0 (lengths ++ [L]) = scrollStep (runScroll 0 lengths) L := by
    simp [runScroll, List.foldl_append]
  refine ⟨?_, by omega, heq⟩
  rw [heq, hstep _ _ (by omega) hL]
  split_ifs <;> omega

/-- Witness for C16: the offset 42 wraps to 0 on the 7-character text
"NO LOCK", and stays in range after a 16-character text is followed by it. -/
theorem scroll_offset_spec_witness :
    scrollStep 42 7 = 0 ∧ runScroll 0 ([16, 16, 16] ++ [7]) ≤ 6 * 7 :=
  ⟨(scroll_offset_spec.1 42 7 (by decide) (by decide)).trans (by decide),
   (scroll_offset_spec.2 [16, 16, 16] 7 (by decide) (by decide)).1⟩

/-! ## Counter wrap -/

/-- C18: for every `nowUs` and a last edge time `(nowUs + d) mod 2^32` with
`1 <= d <= 2^32 - 250000` (zero or not), the unsigned difference
`(nowUs - lastEdgeUs) mod 2^32` is `2^32 - d`, at least `kNoLockTimeoutUs`, and
the label is "NO LOCK" for every fps and level; so a window whose `nowUs` was
read before an edge at that time was captured is labelled "NO LOCK". -/
theorem edge_after_now_no_lock (A : FloatArith) (s : Accum) (nowUs d : Nat)
    (measuredFps : ℚ) (hdDet : PinStatus)
    (hd1 : 1 ≤ d) (hd2 : d ≤ 2 ^ 32 - 250000) :
    kNoLockTimeoutUs ≤ sub32 nowUs ((nowUs + d) % 2 ^ 32) ∧
    sub32 nowUs ((nowUs + d) % 2 ^ 32) = 2 ^ 32 - d ∧
    classify ((nowUs + d) % 2 ^ 32) nowUs measuredFps hdDet = "NO LOCK" ∧
    (windowStep A (vsyncISR s ((nowUs + d) % 2 ^ 32)) nowUs hdDet).1.syncLabel =
      "NO LOCK" := by
  have hsub : sub32 nowUs ((nowUs + d) % 2 ^ 32) = 2 ^ 32 - d := by
    simp only [sub32, U32] at *
    omega
  have hage : kNoLockTimeoutUs ≤ sub32 nowUs ((nowUs + d) % 2 ^ 32) := by
    rw [hsub]
    simp only [kNoLockTimeoutUs]
    omega
  have hun : locked ((nowUs + d) % 2 ^ 32) nowUs = false := by
    have hn : ¬ locked ((nowUs + d) % 2 ^ 32) nowUs = true := by
      rw [locked_iff]
      simp only [kNoLockTimeoutUs] at hage
      omega
    simpa using hn
  refine ⟨hage, hsub, classify_of_unlocked _ _ _ _ hun, ?_⟩
  show classify (snapshot (vsyncISR s ((nowUs + d) % 2 ^ 32))).lastEdgeUs nowUs _ hdDet = _
  have hl : (snapshot (vsyncISR s ((nowUs + d) % 2 ^ 32))).lastEdgeUs =
      (nowUs + d) % 2 ^ 32 := vsyncISR_last s _
  rw [hl]
  exact classify_of_unlocked _ _ _ _ hun

/-- Witness for C18: `nowUs` read at 1000000 us, an edge captured 5 us later. -/
theorem edge_after_now_no_lock_witness :
    classify ((1000000 + 5) % 2 ^ 32) 1000000 60 PinStatus.LOW = "NO LOCK" :=
  (edge_after_now_no_lock exactArith powerOn 1000000 5 60 PinStatus.LOW (by norm_num)
    (by norm_num)).2.2.1

/-- C19: with a 32-bit previous edge time `prev != 0` and a true elapsed time
`5000 <= d < 2^32`, an edge at `(prev + d) mod 2^32` measures the period `d`
and folds exactly `d` into the count, the sum, the sum of squares, the minimum
and the maximum; and the classifier age of a 32-bit last edge time read
`a < 2^32` microseconds later is `a`. -/
theorem period_across_wrap (s : Accum) (d : Nat)
    (hprev : s.lastVsyncMicros ≠ 0) (hlt : s.lastVsyncMicros < 2 ^ 32)
    (hd : 5000 ≤ d) (hd2 : d < 2 ^ 32) :
    sub32 ((s.lastVsyncMicros + d) % 2 ^ 32) s.lastVsyncMicros = d ∧
    (vsyncISR s ((s.lastVsyncMicros + d) % 2 ^ 32)).vsyncCount =
      (s.vsyncCount + 1) % 2 ^ 32 ∧
    (vsyncISR s ((s.lastVsyncMicros + d) % 2 ^ 32)).sumPeriodsUs =
      (s.sumPeriodsUs + d) % 2 ^ 64 ∧
    (vsyncISR s ((s.lastVsyncMicros + d) % 2 ^ 32)).sumSqPeriodsUs2 =
      (s.sumSqPeriodsUs2 + d ^ 2) % 2 ^ 64 ∧
    (vsyncISR s ((s.lastVsyncMicros + d) % 2 ^ 32)).minPeriodUs = min s.minPeriodUs d ∧
    (vsyncISR s ((s.lastVsyncMicros + d) % 2 ^ 32)).maxPeriodUs = max s.maxPeriodUs d ∧
    (∀ lastEdgeUs a : Nat, lastEdgeUs < 2 ^ 32 → a < 2 ^ 32 →
      sub32 ((lastEdgeUs + a) % 2 ^ 32) lastEdgeUs = a) := by
  have hgen : ∀ l a : Nat, l < 2 ^ 32 → a < 2 ^ 32 → sub32 ((l + a) % 2 ^ 32) l = a := by
    intro l a hl ha
    simp only [sub32, U32] at *
    omega
  have hsub := hgen s.lastVsyncMicros d hlt hd2
  have hp : kMinValidFramePeriodUs ≤
      sub32 ((s.lastVsyncMicros + d) % 2 ^ 32) s.lastVsyncMicros := by
    rw [hsub]
    exact hd
  have hsq : d * d < U64 := sq_lt_U64 d hd2
  rw [vsyncISR_take s _ hprev hp, hsub]
  refine ⟨rfl, rfl, rfl, ?_, ?_, ?_, hgen⟩
  · show (s.sumSqPeriodsUs2 + (d * d) % U64) % U64 = _
    rw [Nat.mod_eq_of_lt hsq, sq]
    rfl
  · show (if d < s.minPeriodUs then d else s.minPeriodUs) = _
    split_ifs with h
    · exact (min_eq_right (le_of_lt h)).symm
    · exact (min_eq_left (not_lt.mp h)).symm
  · show (if d > s.maxPeriodUs then d else s.maxPeriodUs) = _
    split_ifs with h
    · exact (max_eq_right (le_of_lt h)).symm
    · exact (max_eq_left (not_lt.mp h)).symm

/-- Witness for C19: the previous edge 1000 us before the counter wraps, the
next edge 16667 us later, at `micros() == 15667`. -/
theorem period_across_wrap_witness :
    (4294966296 + 16667) % 2 ^ 32 = 15667 ∧
    sub32 ((4294966296 + 16667) % 2 ^ 32) 4294966296 = 16667 ∧
    (vsyncISR { powerOn with lastVsyncMicros := 4294966296 }
      ((4294966296 + 16667) % 2 ^ 32)).sumPeriodsUs = (0 + 16667) % 2 ^ 64 :=
  ⟨by norm_num,
   (period_across_wrap { powerOn with lastVsyncMicros := 4294966296 } 16667 (by decide)
     (by norm_num [powerOn]) (by norm_num) (by norm_num)).1,
   (period_across_wrap { powerOn with lastVsyncMicros := 4294966296 } 16667 (by decide)
     (by norm_num [powerOn]) (by norm_num) (by norm_num)).2.2.1⟩

/-! ## Frame buffer -/

/-- C20: every index that `drawChar` writes lies in `0 .. NUM_LEDS - 1`
(`NUM_LEDS` is 105), for every glyph table, character, `xOffset` and colour;
characters outside 32..126 write nothing; the glyph index `c - 32` of a drawn
character lies in 0..94; and `XY` is injective on `0 <= x < 15`,
`0 <= y < 7`. -/
theorem drawChar_in_bounds (font7x5 : Nat → Nat → Nat) (c xOffset : Int) :
    NUM_LEDS = 105 ∧
    (∀ i ∈ drawCharWrites font7x5 c xOffset, 0 ≤ i ∧ i < NUM_LEDS) ∧
    (c < 32 ∨ c > 126 → drawCharWrites font7x5 c xOffset = []) ∧
    (c < 32 ∨ c > 126 → ∀ (color : CRGB) (leds : List CRGB),
      drawChar font7x5 c xOffset color leds = leds) ∧
    (drawCharWrites font7x5 c xOffset ≠ [] → 0 ≤ c - 32 ∧ c - 32 ≤ 94) ∧
    (∀ (color : CRGB) (leds : List CRGB),
      (drawChar font7x5 c xOffset color leds).length = leds.length) ∧
    (∀ x1 y1 x2 y2 : Int, 0 ≤ x1 → x1 < 15 → 0 ≤ y1 → y1 < 7 → 0 ≤ x2 → x2 < 15 →
      0 ≤ y2 → y2 < 7 → XY x1 y1 = XY x2 y2 → x1 = x2 ∧ y1 = y2) := by
  have hskip : c < 32 ∨ c > 126 → drawCharWrites font7x5 c xOffset = [] := by
    intro h
    simp [drawCharWrites, h]
  refine ⟨by decide, ?_, hskip, ?_, ?_, ?_, ?_⟩
  · intro i hi
    unfold drawCharWrites at hi
    split_ifs at hi with hc
    · simp at hi
    · simp only [List.mem_flatMap, List.mem_filterMap, List.mem_range] at hi
      obtain ⟨x, hx, y, hy, hsome⟩ := hi
      split_ifs at hsome with hbit hpos
      · simp only [Option.some.injEq] at hsome
        simp only [XY, MATRIX_WIDTH, MATRIX_HEIGHT, NUM_LEDS] at *
        omega
  · intro h color leds
    simp [drawChar, hskip h]
  · intro hne
    by_contra hc
    exact hne (hskip (by omega))
  · intro color leds
    unfold drawChar
    generalize drawCharWrites font7x5 c xOffset = ws
    induction ws generalizing leds with
    | nil => rfl
    | cons w ws ih =>
      rw [List.foldl_cons, ih]
      simp
  · intro x1 y1 x2 y2 _ _ _ _ _ _ _ _ h
    simp only [XY, MATRIX_HEIGHT] at h
    omega

/-- Witness for C20: a character below 32 writes nothing; the letter `A` with
every pixel of its glyph set, drawn at `xOffset` 13, writes the last two columns
of the matrix and is clipped on the right. -/
theorem drawChar_in_bounds_witness :
    drawCharWrites (fun _ _ => 127) 10 0 = [] ∧
    drawCharWrites (fun _ _ => 127) 65 13 =
      [91, 92, 93, 94, 95, 96, 97, 98, 99, 100, 101, 102, 103, 104] ∧
    (∀ i ∈ drawCharWrites (fun _ _ => 127) 65 13, 0 ≤ i ∧ i < NUM_LEDS) ∧
    (0 ≤ (65 : Int) - 32 ∧ (65 : Int) - 32 ≤ 94) :=
  ⟨(drawChar_in_bounds (fun _ _ => 127) 10 0).2.2.1 (Or.inl (by decide)),
   by decide,
   (drawChar_in_bounds (fun _ _ => 127) 65 13).2.1,
   (drawChar_in_bounds (fun _ _ => 127) 65 13).2.2.2.2.1 (by decide)⟩

/-! ## Window statistics -/

theorem deriveStats_valid (A : FloatArith) (w : Snapshot) (hc : w.count ≥ 1)
    (hs : w.sumP > 0) :
    deriveStats A w =
      { fps := A.div 1000000 (A.div (A.ofUInt w.sumP) (A.ofUInt w.count))
        meanPeriodUs := A.div (A.ofUInt w.sumP) (A.ofUInt w.count)
        rmsJitterUs :=
          A.sqrt
            (if A.sub (A.div (A.ofUInt w.sumSqP) (A.ofUInt w.count))
                (A.mul (A.div (A.ofUInt w.sumP) (A.ofUInt w.count))
                  (A.div (A.ofUInt w.sumP) (A.ofUInt w.count))) < 0 then 0
            else A.sub (A.div (A.ofUInt w.sumSqP) (A.ofUInt w.count))
                (A.mul (A.div (A.ofUInt w.sumP) (A.ofUInt w.count))
                  (A.div (A.ofUInt w.sumP) (A.ofUInt w.count))))
        ppJitterUs := if w.minP > 0 ∧ w.maxP ≥ w.minP then sub32 w.maxP w.minP else 0 } := by
  have hv : w.count ≥ 1 ∧ w.sumP > 0 := ⟨hc, hs⟩
  simp only [deriveStats, if_pos hv]

theorem clamp_eq_max (v : ℚ) : (if v < 0 then 0 else v) = max 0 v := by
  split_ifs with h
  · exact (max_eq_left (le_of_lt h)).symm
  · exact (max_eq_right (not_lt.mp h)).symm

theorem signLaws_exactArith : SignLaws exactArith := by
  refine ⟨fun n hn => ?_, fun a b ha hb => ?_, fun x _ => ?_⟩
  · show (1 : ℚ) ≤ (n : ℚ)
    exact_mod_cast hn
  · show 0 < a / b
    exact div_pos (by linarith) (by linarith)
  · show (0 : ℚ) ≤ (Nat.sqrt (x.num.toNat * x.den) : ℚ) / (x.den : ℚ)
    positivity

/-- C11: for every snapshot with `count >= 1` and `sum > 0`, the mean period is
`sum / count`, the fps is `1e6 / mean`, the RMS jitter is
`sqrt(max(0, sumSq / count - mean * mean))`, and (the operations keeping signs
as floating point does) the RMS jitter is not negative, the mean is positive
and the ppm jitter is `rms / mean * 1e6`; the operations are those of any
floating-point arithmetic, and without rounding the mean is the exact quotient. -/
theorem window_stats_reference (A : FloatArith) (w : Snapshot) (nowUs : Nat)
    (hdDet : PinStatus) (hc : w.count ≥ 1) (hs : w.sumP > 0) :
    (computeWindow A w nowUs hdDet).meanPeriodUs =
      A.div (A.ofUInt w.sumP) (A.ofUInt w.count) ∧
    (computeWindow A w nowUs hdDet).fps =
      A.div 1000000 (computeWindow A w nowUs hdDet).meanPeriodUs ∧
    (computeWindow A w nowUs hdDet).rmsJitterUs =
      A.sqrt (max 0 (A.sub (A.div (A.ofUInt w.sumSqP) (A.ofUInt w.count))
        (A.mul (computeWindow A w nowUs hdDet).meanPeriodUs
          (computeWindow A w nowUs hdDet).meanPeriodUs))) ∧
    (SignLaws A →
      0 ≤ (computeWindow A w nowUs hdDet).rmsJitterUs ∧
      0 < (computeWindow A w nowUs hdDet).meanPeriodUs ∧
      (computeWindow A w nowUs hdDet).jitterPpm =
        A.mul (A.div (computeWindow A w nowUs hdDet).rmsJitterUs
          (computeWindow A w nowUs hdDet).meanPeriodUs) 1000000) ∧
    ((computeWindow exactArith w nowUs hdDet).meanPeriodUs = (w.sumP : ℚ) / (w.count : ℚ) ∧
      (computeWindow exactArith w nowUs hdDet).fps =
        1000000 / ((w.sumP : ℚ) / (w.count : ℚ)) ∧
      (computeWindow exactArith w nowUs hdDet).jitterPpm =
        (computeWindow exactArith w nowUs hdDet).rmsJitterUs /
          ((w.sumP : ℚ) / (w.count : ℚ)) * 1000000) := by
  have hgen : ∀ B : FloatArith,
      (computeWindow B w nowUs hdDet).meanPeriodUs =
        B.div (B.ofUInt w.sumP) (B.ofUInt w.count) ∧
      (computeWindow B w nowUs hdDet).fps =
        B.div 1000000 (computeWindow B w nowUs hdDet).meanPeriodUs ∧
      (computeWindow B w nowUs hdDet).rmsJitterUs =
        B.sqrt (max 0 (B.sub (B.div (B.ofUInt w.sumSqP) (B.ofUInt w.count))
          (B.mul (computeWindow B w nowUs hdDet).meanPeriodUs
            (computeWindow B w nowUs hdDet).meanPeriodUs))) ∧
      (SignLaws B →
        0 ≤ (computeWindow B w nowUs hdDet).rmsJitterUs ∧
        0 < (computeWindow B w nowUs hdDet).meanPeriodUs ∧
        (computeWindow B w nowUs hdDet).jitterPpm =
          B.mul (B.div (computeWindow B w nowUs hdDet).rmsJitterUs
            (computeWindow B w nowUs hdDet).meanPeriodUs) 1000000) := by
    intro B
    have hd := deriveStats_valid B w hc hs
    have hm : (computeWindow B w nowUs hdDet).meanPeriodUs =
        B.div (B.ofUInt w.sumP) (B.ofUInt w.count) := by
      simp only [computeWindow, hd]
    have hf : (computeWindow B w nowUs hdDet).fps =
        B.div 1000000 (B.div (B.ofUInt w.sumP) (B.ofUInt w.count)) := by
      simp only [computeWindow, hd]
    have hr : (computeWindow B w nowUs hdDet).rmsJitterUs =
        B.sqrt (max 0 (B.sub (B.div (B.ofUInt w.sumSqP) (B.ofUInt w.count))
          (B.mul (B.div (B.ofUInt w.sumP) (B.ofUInt w.count))
            (B.div (B.ofUInt w.sumP) (B.ofUInt w.count))))) := by
      simp only [computeWindow, hd, clamp_eq_max]
    refine ⟨hm, by rw [hm, hf], by rw [hm, hr], fun hlaws => ?_⟩
    obtain ⟨hof, hdiv, hsqrt⟩ := hlaws
    have hpos : 0 < B.div (B.ofUInt w.sumP) (B.ofUInt w.count) :=
      hdiv _ _ (hof _ hs) (hof _ hc)
    refine ⟨?_, by rw [hm]; exact hpos, ?_⟩
    · rw [hr]
      exact hsqrt _ (le_max_left 0 _)
    · rw [hm, hr]
      simp only [computeWindow, hd, clamp_eq_max, gt_iff_lt, if_pos hpos]
  obtain ⟨h1, h2, h3, h4⟩ := hgen A
  obtain ⟨e1, e2, _, e4⟩ := hgen exactArith
  obtain ⟨_, _, e7⟩ := e4 signLaws_exactArith
  refine ⟨h1, h2, h3, h4, e1, ?_, ?_⟩
  · rw [e2, e1]
    rfl
  · rw [e7, e1]
    rfl

/-- Witness for C11: one second of a 60 Hz signal, 60 periods of 16667 us. -/
theorem window_stats_reference_witness :
    (computeWindow exactArith
      { count := 60, sumP := 1000020, sumSqP := 16667333340, minP := 16667, maxP := 16667,
        lastEdgeUs := 1001020 } 1001021 PinStatus.LOW).meanPeriodUs = 16667 ∧
    0 ≤ (computeWindow exactArith
      { count := 60, sumP := 1000020, sumSqP := 16667333340, minP := 16667, maxP := 16667,
        lastEdgeUs := 1001020 } 1001021 PinStatus.LOW).rmsJitterUs :=
  ⟨((window_stats_reference exactArith
      { count := 60, sumP := 1000020, sumSqP := 16667333340, minP := 16667, maxP := 16667,
        lastEdgeUs := 1001020 } 1001021 PinStatus.LOW (by decide) (by decide)).2.2.2.2.1).trans
      (by norm_num),
   ((window_stats_reference exactArith
      { count := 60, sumP := 1000020, sumSqP := 16667333340, minP := 16667, maxP := 16667,
        lastEdgeUs := 1001020 } 1001021 PinStatus.LOW (by decide) (by decide)).2.2.2.1
      signLaws_exactArith).1⟩

/-! ## The periods held by a window -/

theorem foldedPeriods_skip (prev now : Nat) (ts : List Nat)
    (h : prev = 0 ∨ sub32 now prev < kMinValidFramePeriodUs) :
    foldedPeriods prev (now :: ts) = foldedPeriods now ts := by
  have hn : ¬ (prev ≠ 0 ∧ kMinValidFramePeriodUs ≤ sub32 now prev) := by
    rintro ⟨h1, h2⟩
    rcases h with h | h
    · exact h1 h
    · omega
  simp only [foldedPeriods, if_neg hn]

theorem foldedPeriods_take (prev now : Nat) (ts : List Nat) (h0 : prev ≠ 0)
    (hp : kMinValidFramePeriodUs ≤ sub32 now prev) :
    foldedPeriods prev (now :: ts) = sub32 now prev :: foldedPeriods now ts := by
  have hy : prev ≠ 0 ∧ kMinValidFramePeriodUs ≤ sub32 now prev := ⟨h0, hp⟩
  simp only [foldedPeriods, if_pos hy]

theorem sumSq_cons (p : Nat) (ps : List Nat) : sumSq (p :: ps) = p * p + sumSq ps := by
  simp [sumSq]

/-- The statistics fields after a run of edges are the count, sum, sum of
squares, minimum and maximum of the periods folded along the run, on top of the
values before the run. -/
theorem runEdges_stats (ts : List Nat) (s : Accum) (h : InRange s) :
    (runEdges s ts).vsyncCount =
      (s.vsyncCount + (foldedPeriods s.lastVsyncMicros ts).length) % U32 ∧
    (runEdges s ts).sumPeriodsUs =
      (s.sumPeriodsUs + (foldedPeriods s.lastVsyncMicros ts).sum) % U64 ∧
    (runEdges s ts).sumSqPeriodsUs2 =
      (s.sumSqPeriodsUs2 + sumSq (foldedPeriods s.lastVsyncMicros ts)) % U64 ∧
    (runEdges s ts).minPeriodUs =
      (foldedPeriods s.lastVsyncMicros ts).foldl min s.minPeriodUs ∧
    (runEdges s ts).maxPeriodUs =
      (foldedPeriods s.lastVsyncMicros ts).foldl max s.maxPeriodUs := by
  induction ts generalizing s with
  | nil =>
    obtain ⟨hc, hs, hq, _⟩ := h
    refine ⟨?_, ?_, ?_, rfl, rfl⟩
    · show s.vsyncCount = (s.vsyncCount + 0) % U32
      rw [Nat.add_zero, Nat.mod_eq_of_lt hc]
    · show s.sumPeriodsUs = (s.sumPeriodsUs + 0) % U64
      rw [Nat.add_zero, Nat.mod_eq_of_lt hs]
    · show s.sumSqPeriodsUs2 = (s.sumSqPeriodsUs2 + 0) % U64
      rw [Nat.add_zero, Nat.mod_eq_of_lt hq]
  | cons now ts ih =>
    have hstep : runEdges s (now :: ts) = runEdges (vsyncISR s now) ts := rfl
    have ih2 := ih (vsyncISR s now) (vsyncISR_inRange s now h)
    rw [vsyncISR_last] at ih2
    rw [hstep]
    by_cases hskip : s.lastVsyncMicros = 0 ∨
        sub32 now s.lastVsyncMicros < kMinValidFramePeriodUs
    · rw [foldedPeriods_skip _ _ _ hskip]
      rw [vsyncISR_skip s now hskip] at ih2 ⊢
      exact ih2
    · have h0 : s.lastVsyncMicros ≠ 0 := fun h => hskip (Or.inl h)
      have hp : kMinValidFramePeriodUs ≤ sub32 now s.lastVsyncMicros := by
        by_contra hlt
        exact hskip (Or.inr (not_le.mp hlt))
      rw [foldedPeriods_take _ _ _ h0 hp]
      rw [vsyncISR_take s now h0 hp] at ih2 ⊢
      obtain ⟨i1, i2, i3, i4, i5⟩ := ih2
      simp only [] at i1 i2 i3 i4 i5
      generalize foldedPeriods now ts = ps at *
      generalize sub32 now s.lastVsyncMicros = p at *
      refine ⟨?_, ?_, ?_, ?_, ?_⟩
      · rw [i1, List.length_cons]
        simp only [U32]
        omega
      · rw [i2, List.sum_cons]
        simp only [U64]
        omega
      · rw [i3, sumSq_cons]
        generalize p * p = q
        simp only [U64]
        omega
      · rw [i4, List.foldl_cons]
        congr 1
        split_ifs with hlt
        · exact (min_eq_right (le_of_lt hlt)).symm
        · exact (min_eq_left (not_lt.mp hlt)).symm
      · rw [i5, List.foldl_cons]
        congr 1
        split_ifs with hgt
        · exact (max_eq_right (le_of_lt hgt)).symm
        · exact (max_eq_left (not_lt.mp hgt)).symm

theorem foldedPeriods_bounds (ts : List Nat) (prev : Nat) :
    ∀ p ∈ foldedPeriods prev ts, kMinValidFramePeriodUs ≤ p ∧ p < U32 := by
  induction ts generalizing prev with
  | nil => intro p hp; simp [foldedPeriods] at hp
  | cons now ts ih =>
    intro p hp
    by_cases hskip : prev = 0 ∨ sub32 now prev < kMinValidFramePeriodUs
    · rw [foldedPeriods_skip _ _ _ hskip] at hp
      exact ih now p hp
    · have h0 : prev ≠ 0 := fun h => hskip (Or.inl h)
      have hq : kMinValidFramePeriodUs ≤ sub32 now prev := by
        by_contra hlt
        exact hskip (Or.inr (not_le.mp hlt))
      rw [foldedPeriods_take _ _ _ h0 hq, List.mem_cons] at hp
      rcases hp with hp | hp
      · rw [hp]
        exact ⟨hq, sub32_lt now prev⟩
      · exact ih now p hp

theorem foldedPeriods_length_le (ts : List Nat) (prev : Nat) :
    (foldedPeriods prev ts).length ≤ ts.length := by
  induction ts generalizing prev with
  | nil => simp [foldedPeriods]
  | cons now ts ih =>
    by_cases hskip : prev = 0 ∨ sub32 now prev < kMinValidFramePeriodUs
    · rw [foldedPeriods_skip _ _ _ hskip]
      exact le_trans (ih now) (by simp)
    · have h0 : prev ≠ 0 := fun h => hskip (Or.inl h)
      have hq : kMinValidFramePeriodUs ≤ sub32 now prev := by
        by_contra hlt
        exact hskip (Or.inr (not_le.mp hlt))
      rw [foldedPeriods_take _ _ _ h0 hq]
      simp only [List.length_cons]
      exact Nat.succ_le_succ (ih now)

theorem foldl_min_spec (ps : List Nat) (m : Nat) :
    ps.foldl min m ≤ m ∧ (∀ p ∈ ps, ps.foldl min m ≤ p) ∧
      (ps.foldl min m = m ∨ ps.foldl min m ∈ ps) := by
  induction ps generalizing m with
  | nil => exact ⟨le_refl m, fun p hp => absurd hp (List.not_mem_nil p), Or.inl rfl⟩
  | cons x xs ih =>
    obtain ⟨h1, h2, h3⟩ := ih (min m x)
    rw [List.foldl_cons]
    refine ⟨le_trans h1 (min_le_left m x), ?_, ?_⟩
    · intro p hp
      rcases List.mem_cons.mp hp with hp | hp
      · rw [hp]
        exact le_trans h1 (min_le_right m x)
      · exact h2 p hp
    · rcases h3 with h3 | h3
      · rcases min_choice m x with hm | hm
        · exact Or.inl (h3.trans hm)
        · exact Or.inr (List.mem_cons.mpr (Or.inl (h3.trans hm)))
      · exact Or.inr (List.mem_cons_of_mem x h3)

theorem foldl_max_spec (ps : List Nat) (m : Nat) :
    m ≤ ps.foldl max m ∧ (∀ p ∈ ps, p ≤ ps.foldl max m) ∧
      (ps.foldl max m = m ∨ ps.foldl max m ∈ ps) := by
  induction ps generalizing m with
  | nil => exact ⟨le_refl m, fun p hp => absurd hp (List.not_mem_nil p), Or.inl rfl⟩
  | cons x xs ih =>
    obtain ⟨h1, h2, h3⟩ := ih (max m x)
    rw [List.foldl_cons]
    refine ⟨le_trans (le_max_left m x) h1, ?_, ?_⟩
    · intro p hp
      rcases List.mem_cons.mp hp with hp | hp
      · rw [hp]
        exact le_trans (le_max_right m x) h1
      · exact h2 p hp
    · rcases h3 with h3 | h3
      · rcases max_choice m x with hm | hm
        · exact Or.inl (h3.trans hm)
        · exact Or.inr (List.mem_cons.mpr (Or.inl (h3.trans hm)))
      · exact Or.inr (List.mem_cons_of_mem x h3)

/-- A reachable accumulator is a reset accumulator followed by the edges of the
current window. -/
theorem reachable_window (n : Nat) (s : Accum) (h : Reachable n s) :
    ∃ (s0 : Accum) (ts : List Nat), ts.length = n ∧ s = runEdges (resetWindow s0) ts := by
  induction h with
  | init => exact ⟨powerOn, [], rfl, rfl⟩
  | drain n s _ _ => exact ⟨s, [], rfl, rfl⟩
  | edge n s now _ _ ih =>
    obtain ⟨s0, ts, hlen, hs⟩ := ih
    refine ⟨s0, ts ++ [now], by simp [hlen], ?_⟩
    rw [runEdges_append, ← hs]
    rfl

/-- C12 (counterexample): after an edge at 1 us and the next edge 4294967295 us
later (at `micros() == 0`), the drained window has count 1 but `minP` is
reported as 0, so the guard `minP > 0 && maxP >= minP` is false. -/
theorem peak_to_peak_guard_counterexample :
    Reachable 2 (vsyncISR (vsyncISR powerOn 1) 0) ∧
    (snapshot (vsyncISR (vsyncISR powerOn 1) 0)).count = 1 ∧
    (snapshot (vsyncISR (vsyncISR powerOn 1) 0)).minP = 0 ∧
    (snapshot (vsyncISR (vsyncISR powerOn 1) 0)).maxP = 4294967295 ∧
    ¬ ((snapshot (vsyncISR (vsyncISR powerOn 1) 0)).minP > 0 ∧
        (snapshot (vsyncISR (vsyncISR powerOn 1) 0)).maxP ≥
          (snapshot (vsyncISR (vsyncISR powerOn 1) 0)).minP) := by
  have hr : Reachable 2 (vsyncISR (vsyncISR powerOn 1) 0) :=
    Reachable.edge 1 _ 0 (Reachable.edge 0 _ 1 Reachable.init (by decide)) (by decide)
  have hv : vsyncISR (vsyncISR powerOn 1) 0 =
      { lastVsyncMicros := 0, vsyncCount := 1, sumPeriodsUs := 4294967295,
        sumSqPeriodsUs2 := 18446744065119617025, minPeriodUs := 4294967295,
        maxPeriodUs := 4294967295 } := by
    decide
  refine ⟨hr, ?_, ?_, ?_, ?_⟩
  · rw [hv]
    rfl
  · rw [hv]
    decide
  · rw [hv]
    rfl
  · rw [hv]
    decide

/-- C12 (amended): for every accumulator reachable from power-on by edge
interrupts and drains (fewer than 2^32 edges per window) whose snapshot has
`count >= 1`, `ppJitterUs == maxPeriodUs - minPeriodUs`, where `maxPeriodUs`
and `minPeriodUs` are the largest and the smallest period folded in the window;
the guard `minP > 0 && maxP >= minP` is true exactly when the smallest period
is not 0xFFFFFFFF. -/
theorem peak_to_peak_spec (A : FloatArith) (n : Nat) (s : Accum) (nowUs : Nat)
    (hdDet : PinStatus) (h : Reachable n s) (hc : (snapshot s).count ≥ 1) :
    (computeWindow A (snapshot s) nowUs hdDet).ppJitterUs = s.maxPeriodUs - s.minPeriodUs ∧
    s.minPeriodUs ≤ s.maxPeriodUs ∧
    (((snapshot s).minP > 0 ∧ (snapshot s).maxP ≥ (snapshot s).minP) ↔
      s.minPeriodUs ≠ 0xFFFFFFFF) ∧
    (∃ (s0 : Accum) (ts : List Nat), s = runEdges (resetWindow s0) ts ∧
      s.maxPeriodUs ∈ foldedPeriods s0.lastVsyncMicros ts ∧
      s.minPeriodUs ∈ foldedPeriods s0.lastVsyncMicros ts ∧
      ∀ p ∈ foldedPeriods s0.lastVsyncMicros ts, s.minPeriodUs ≤ p ∧ p ≤ s.maxPeriodUs) := by
  obtain ⟨_, _, hw⟩ := reachable_inv n s h
  have hcount : s.vsyncCount ≥ 1 := hc
  have hfill : FilledWindow s := by
    rcases hw with he | hf
    · have := he.1
      omega
    · exact hf
  obtain ⟨_, hmin, hmm, hsum⟩ := hfill
  obtain ⟨s0, ts, _, hs⟩ := reachable_window n s h
  obtain ⟨_, _, _, rmin, rmax⟩ := runEdges_stats ts (resetWindow s0) (resetWindow_inRange s0)
  rw [← hs] at rmin rmax
  have hlast : (resetWindow s0).lastVsyncMicros = s0.lastVsyncMicros := rfl
  rw [hlast] at rmin rmax
  have hb := foldedPeriods_bounds ts s0.lastVsyncMicros
  obtain ⟨m1, m2, m3⟩ := foldl_min_spec (foldedPeriods s0.lastVsyncMicros ts)
    (resetWindow s0).minPeriodUs
  obtain ⟨x1, x2, x3⟩ := foldl_max_spec (foldedPeriods s0.lastVsyncMicros ts)
    (resetWindow s0).maxPeriodUs
  rw [← rmin] at m1 m2 m3
  rw [← rmax] at x1 x2 x3
  have hmaxmem : s.maxPeriodUs ∈ foldedPeriods s0.lastVsyncMicros ts := by
    rcases x3 with x3 | x3
    · have h0 : (resetWindow s0).maxPeriodUs = 0 := rfl
      omega
    · exact x3
  have hmaxlt : s.maxPeriodUs < U32 := (hb _ hmaxmem).2
  have hminmem : s.minPeriodUs ∈ foldedPeriods s0.lastVsyncMicros ts := by
    rcases m3 with m3 | m3
    · have h0 : (resetWindow s0).minPeriodUs = 4294967295 := rfl
      have h1 : s.maxPeriodUs = s.minPeriodUs := by
        simp only [U32] at hmaxlt
        omega
      rw [← h1]
      exact hmaxmem
    · exact m3
  have hsp : (snapshot s).sumP > 0 := by
    show s.sumPeriodsUs > 0
    omega
  have hd := deriveStats_valid A (snapshot s) hc hsp
  have hpp : (computeWindow A (snapshot s) nowUs hdDet).ppJitterUs =
      if (snapshot s).minP > 0 ∧ (snapshot s).maxP ≥ (snapshot s).minP then
        sub32 (snapshot s).maxP (snapshot s).minP else 0 := by
    simp only [computeWindow, hd]
  have hminP : (snapshot s).minP = if s.minPeriodUs = kMinInit then 0 else s.minPeriodUs := rfl
  have hmaxP : (snapshot s).maxP = s.maxPeriodUs := rfl
  refine ⟨?_, hmm, ?_, s0, ts, hs, hmaxmem, hminmem, fun p hp => ⟨m2 p hp, x2 p hp⟩⟩
  · rw [hpp, hminP, hmaxP]
    simp only [sub32, U32, kMinInit] at *
    split_ifs <;> omega
  · rw [hminP, hmaxP]
    simp only [kMinInit] at *
    split_ifs <;> omega

/-- Witness for the amended C12: three edges with periods 16667 us and
16670 us. -/
theorem peak_to_peak_spec_witness :
    Reachable 3 (vsyncISR (vsyncISR (vsyncISR powerOn 1000) 17667) 34337) ∧
    (snapshot (vsyncISR (vsyncISR (vsyncISR powerOn 1000) 17667) 34337)).count ≥ 1 ∧
    (computeWindow exactArith
      (snapshot (vsyncISR (vsyncISR (vsyncISR powerOn 1000) 17667) 34337)) 34338
      PinStatus.LOW).ppJitterUs = 3 := by
  have hr : Reachable 3 (vsyncISR (vsyncISR (vsyncISR powerOn 1000) 17667) 34337) :=
    Reachable.edge 2 _ 34337
      (Reachable.edge 1 _ 17667 (Reachable.edge 0 _ 1000 Reachable.init (by decide))
        (by decide)) (by decide)
  have hc : (snapshot (vsyncISR (vsyncISR (vsyncISR powerOn 1000) 17667) 34337)).count ≥ 1 := by
    decide
  exact ⟨hr, hc, (peak_to_peak_spec exactArith 3 _ 34338 PinStatus.LOW hr hc).1.trans
    (by decide)⟩

/-! ## Sums over the periods of a window -/

theorem two_mul_le_sq_add_sq (p x : Nat) : 2 * p * x ≤ p * p + x * x := by
  rcases le_total p x with h | h
  · obtain ⟨k, rfl⟩ := Nat.exists_eq_add_of_le h
    nlinarith
  · obtain ⟨k, rfl⟩ := Nat.exists_eq_add_of_le h
    nlinarith

theorem two_mul_sum_le (p : Nat) (ps : List Nat) :
    2 * p * ps.sum ≤ ps.length * (p * p) + sumSq ps := by
  induction ps with
  | nil => simp [sumSq]
  | cons x xs ih =>
    rw [List.sum_cons, List.length_cons, sumSq_cons]
    have hx := two_mul_le_sq_add_sq p x
    nlinarith

/-- Cauchy-Schwarz for a list of periods. -/
theorem sum_sq_le_length_mul_sumSq (ps : List Nat) :
    ps.sum * ps.sum ≤ ps.length * sumSq ps := by
  induction ps with
  | nil => simp [sumSq]
  | cons x xs ih =>
    rw [List.sum_cons, List.length_cons, sumSq_cons]
    have hx := two_mul_sum_le x xs
    nlinarith

theorem sums_of_constant (ps : List Nat) (c : Nat) (h : ∀ p ∈ ps, p = c) :
    ps.sum = ps.length * c ∧ sumSq ps = ps.length * (c * c) := by
  induction ps with
  | nil => simp [sumSq]
  | cons x xs ih =>
    obtain ⟨i1, i2⟩ := ih (fun p hp => h p (List.mem_cons_of_mem x hp))
    have hx : x = c := h x (List.mem_cons_self x xs)
    rw [List.sum_cons, List.length_cons, sumSq_cons, i1, i2, hx]
    constructor <;> ring

theorem sums_bounds (ps : List Nat) (lo hi : Nat) (h : ∀ p ∈ ps, lo ≤ p ∧ p ≤ hi) :
    lo * ps.length ≤ ps.sum ∧ ps.sum ≤ hi * ps.length ∧
      sumSq ps ≤ hi * hi * ps.length := by
  induction ps with
  | nil => simp [sumSq]
  | cons x xs ih =>
    obtain ⟨i1, i2, i3⟩ := ih (fun p hp => h p (List.mem_cons_of_mem x hp))
    obtain ⟨hx1, hx2⟩ := h x (List.mem_cons_self x xs)
    have hxx : x * x ≤ hi * hi := Nat.mul_le_mul hx2 hx2
    rw [List.sum_cons, List.length_cons, sumSq_cons]
    refine ⟨?_, ?_, ?_⟩ <;> nlinarith

/-- Statistics of a window that starts from a reset accumulator and holds fewer
than 2^32 periods whose sums fit in 64 bits: nothing has wrapped. -/
theorem window_stats_exact (s : Accum) (ts : List Nat)
    (hn : (foldedPeriods s.lastVsyncMicros ts).length < U32)
    (hs : (foldedPeriods s.lastVsyncMicros ts).sum < U64)
    (hq : sumSq (foldedPeriods s.lastVsyncMicros ts) < U64) :
    (runEdges (resetWindow s) ts).vsyncCount = (foldedPeriods s.lastVsyncMicros ts).length ∧
    (runEdges (resetWindow s) ts).sumPeriodsUs = (foldedPeriods s.lastVsyncMicros ts).sum ∧
    (runEdges (resetWindow s) ts).sumSqPeriodsUs2 =
      sumSq (foldedPeriods s.lastVsyncMicros ts) ∧
    (runEdges (resetWindow s) ts).minPeriodUs =
      (foldedPeriods s.lastVsyncMicros ts).foldl min kMinInit ∧
    (runEdges (resetWindow s) ts).maxPeriodUs =
      (foldedPeriods s.lastVsyncMicros ts).foldl max 0 := by
  obtain ⟨r1, r2, r3, r4, r5⟩ :=
    runEdges_stats ts (resetWindow s) (resetWindow_inRange s)
  have hlast : (resetWindow s).lastVsyncMicros = s.lastVsyncMicros := rfl
  rw [hlast] at r1 r2 r3 r4 r5
  refine ⟨?_, ?_, ?_, r4, r5⟩
  · rw [r1]
    show (0 + _) % U32 = _
    rw [Nat.zero_add, Nat.mod_eq_of_lt hn]
  · rw [r2]
    show (0 + _) % U64 = _
    rw [Nat.zero_add, Nat.mod_eq_of_lt hs]
  · rw [r3]
    show (0 + _) % U64 = _
    rw [Nat.zero_add, Nat.mod_eq_of_lt hq]

/-! ## A window of 2^32 alternating periods -/

theorem altTime_ne_zero (i : Nat) (h : i ≤ 4294967296) : altTime i ≠ 0 := by
  have hj : i / 2 ≤ 2147483648 := by omega
  have hr : i % 2 = 0 ∨ i % 2 = 1 := Nat.mod_two_eq_zero_or_one i
  intro h0
  unfold altTime U32 at h0
  obtain ⟨q, hq⟩ := Nat.dvd_of_mod_eq_zero h0
  clear h0 h
  generalize i / 2 = j at hq hj
  generalize i % 2 = r at hq hr
  have hq2 : (1 + 33337 * (j : ℤ) + 16667 * (r : ℤ)) = 4294967296 * (q : ℤ) := by
    exact_mod_cast hq
  rcases hr with hr | hr
  · subst hr
    have hz : (1642515465 + (j : ℤ)) =
        4294967296 * (1642515465 * (q : ℤ) - 12749 * (j : ℤ)) := by
      linear_combination 1642515465 * hq2
    generalize 1642515465 * (q : ℤ) - 12749 * (j : ℤ) = z at hz
    clear hq hq2
    omega
  · subst hr
    have hz : (1326225916 + (j : ℤ)) =
        4294967296 * (1642515465 * (q : ℤ) - 12749 * (j : ℤ) - 6374) := by
      linear_combination 1642515465 * hq2
    generalize 1642515465 * (q : ℤ) - 12749 * (j : ℤ) - 6374 = z at hz
    clear hq hq2
    omega

theorem altTime_step (i : Nat) : sub32 (altTime (i + 1)) (altTime i) = altPeriod i := by
  unfold sub32 altTime altPeriod U32
  split_ifs <;> omega

theorem altPeriod_values (i : Nat) :
    (altPeriod i = 16667 ∨ altPeriod i = 16670) ∧ kMinValidFramePeriodUs ≤ altPeriod i := by
  unfold altPeriod kMinValidFramePeriodUs
  split_ifs
  · exact ⟨Or.inl rfl, by decide⟩
  · exact ⟨Or.inr rfl, by decide⟩

theorem foldedPeriods_alt (n k : Nat) (h : k + n ≤ 4294967296) :
    foldedPeriods (altTime k) ((List.range' (k + 1) n).map altTime) =
      (List.range' k n).map altPeriod := by
  induction n generalizing k with
  | zero => rfl
  | succ n ih =>
    have hk : altTime k ≠ 0 := altTime_ne_zero k (by omega)
    have hp : kMinValidFramePeriodUs ≤ sub32 (altTime (k + 1)) (altTime k) := by
      rw [altTime_step]
      exact (altPeriod_values k).2
    rw [List.range'_succ, List.range'_succ, List.map_cons, List.map_cons,
      foldedPeriods_take _ _ _ hk hp, altTime_step, ih (k + 1) (by omega)]

/-- The edges of the alternating signal fold exactly its periods. -/
theorem foldedPeriods_altTimes (n : Nat) (h : n ≤ 4294967296) :
    foldedPeriods 0 (altTimes n) = (List.range' 0 n).map altPeriod := by
  unfold altTimes
  rw [List.range'_succ, List.map_cons, foldedPeriods_skip 0 _ _ (Or.inl rfl)]
  exact foldedPeriods_alt n 0 (by omega)

/-- After the 2^32 + 1 edges of the alternating signal the 32-bit count has
wrapped to 0 while the 64-bit sums hold the true sums. -/
theorem altTimes_wrapped :
    (foldedPeriods 0 (altTimes 4294967296)).length = 4294967296 ∧
    (∀ p ∈ foldedPeriods 0 (altTimes 4294967296), p = 16667 ∨ p = 16670) ∧
    (foldedPeriods 0 (altTimes 4294967296)).sum < U64 ∧
    sumSq (foldedPeriods 0 (altTimes 4294967296)) < U64 ∧
    0 < (foldedPeriods 0 (altTimes 4294967296)).sum ∧
    (runEdges powerOn (altTimes 4294967296)).vsyncCount = 0 ∧
    (runEdges powerOn (altTimes 4294967296)).sumPeriodsUs =
      (foldedPeriods 0 (altTimes 4294967296)).sum ∧
    (runEdges powerOn (altTimes 4294967296)).sumSqPeriodsUs2 =
      sumSq (foldedPeriods 0 (altTimes 4294967296)) := by
  have hf := foldedPeriods_altTimes 4294967296 (le_refl _)
  have hlen : (foldedPeriods 0 (altTimes 4294967296)).length = 4294967296 := by
    rw [hf, List.length_map, List.length_range']
  have hall : ∀ p ∈ foldedPeriods 0 (altTimes 4294967296), p = 16667 ∨ p = 16670 := by
    intro p hp
    rw [hf, List.mem_map] at hp
    obtain ⟨i, _, hi⟩ := hp
    rw [← hi]
    exact (altPeriod_values i).1
  have hb := sums_bounds (foldedPeriods 0 (altTimes 4294967296)) 16667 16670
    (fun p hp => by rcases hall p hp with h | h <;> omega)
  rw [hlen] at hb
  obtain ⟨b1, b2, b3⟩ := hb
  have hs : (foldedPeriods 0 (altTimes 4294967296)).sum < U64 := by
    unfold U64
    omega
  have hq : sumSq (foldedPeriods 0 (altTimes 4294967296)) < U64 := by
    unfold U64
    omega
  have hinr : InRange powerOn := resetWindow_inRange powerOn
  obtain ⟨r1, r2, r3, _, _⟩ := runEdges_stats (altTimes 4294967296) powerOn hinr
  have hlast : powerOn.lastVsyncMicros = 0 := rfl
  rw [hlast] at r1 r2 r3
  refine ⟨hlen, hall, hs, hq, by omega, ?_, ?_, ?_⟩
  · rw [r1, hlen]
    rfl
  · have h0 : powerOn.sumPeriodsUs = 0 := rfl
    rw [r2, h0, Nat.zero_add, Nat.mod_eq_of_lt hs]
  · have h0 : powerOn.sumSqPeriodsUs2 = 0 := rfl
    rw [r3, h0, Nat.zero_add, Nat.mod_eq_of_lt hq]

/-! ## Variance of a window -/

/-- C17 (counterexample): after the 2^32 + 1 edges of a signal whose periods
alternate between 16667 us and 16670 us, applied to the power-on accumulator,
the 64-bit sums have not wrapped but `vsyncCount` has wrapped to 0, and
`vsyncCount * sumSqPeriodsUs2 >= sumPeriodsUs^2` is false. -/
theorem count_wrap_variance_counterexample :
    (foldedPeriods 0 (altTimes 4294967296)).sum < U64 ∧
    sumSq (foldedPeriods 0 (altTimes 4294967296)) < U64 ∧
    (runEdges powerOn (altTimes 4294967296)).sumPeriodsUs =
      (foldedPeriods 0 (altTimes 4294967296)).sum ∧
    (runEdges powerOn (altTimes 4294967296)).sumSqPeriodsUs2 =
      sumSq (foldedPeriods 0 (altTimes 4294967296)) ∧
    (runEdges powerOn (altTimes 4294967296)).vsyncCount = 0 ∧
    ¬ ((runEdges powerOn (altTimes 4294967296)).vsyncCount *
          (runEdges powerOn (altTimes 4294967296)).sumSqPeriodsUs2 ≥
        (runEdges powerOn (altTimes 4294967296)).sumPeriodsUs ^ 2) := by
  obtain ⟨_, _, hs, hq, hpos, hc, hsum, hsq⟩ := altTimes_wrapped
  refine ⟨hs, hq, hsum, hsq, hc, ?_⟩
  rw [hc, hsum, Nat.zero_mul]
  have h2 : 0 < (foldedPeriods 0 (altTimes 4294967296)).sum ^ 2 := pow_pos hpos 2
  omega

/-- C17 (amended): for a reset accumulator followed by edges whose folded
periods number fewer than 2^32 and whose 64-bit sums have not wrapped,
`vsyncCount * sumSqPeriodsUs2 >= sumPeriodsUs^2`, with equality when all folded
periods are equal; so with at least one period the exact variance is not
negative and, without rounding, the clamp leaves it unchanged. -/
theorem variance_nonneg (s : Accum) (ts : List Nat) (nowUs : Nat) (hdDet : PinStatus)
    (hn : (foldedPeriods s.lastVsyncMicros ts).length < U32)
    (hs : (foldedPeriods s.lastVsyncMicros ts).sum < U64)
    (hq : sumSq (foldedPeriods s.lastVsyncMicros ts) < U64) :
    (runEdges (resetWindow s) ts).vsyncCount * (runEdges (resetWindow s) ts).sumSqPeriodsUs2 ≥
      (runEdges (resetWindow s) ts).sumPeriodsUs ^ 2 ∧
    ((∀ p ∈ foldedPeriods s.lastVsyncMicros ts, ∀ q ∈ foldedPeriods s.lastVsyncMicros ts,
        p = q) →
      (runEdges (resetWindow s) ts).vsyncCount *
          (runEdges (resetWindow s) ts).sumSqPeriodsUs2 =
        (runEdges (resetWindow s) ts).sumPeriodsUs ^ 2) ∧
    ((runEdges (resetWindow s) ts).vsyncCount ≥ 1 →
      0 ≤ ((runEdges (resetWindow s) ts).sumSqPeriodsUs2 : ℚ) /
            ((runEdges (resetWindow s) ts).vsyncCount : ℚ) -
          ((runEdges (resetWindow s) ts).sumPeriodsUs : ℚ) /
              ((runEdges (resetWindow s) ts).vsyncCount : ℚ) *
            (((runEdges (resetWindow s) ts).sumPeriodsUs : ℚ) /
              ((runEdges (resetWindow s) ts).vsyncCount : ℚ)) ∧
      (computeWindow exactArith (snapshot (runEdges (resetWindow s) ts)) nowUs
          hdDet).rmsJitterUs =
        exactArith.sqrt
          (((runEdges (resetWindow s) ts).sumSqPeriodsUs2 : ℚ) /
              ((runEdges (resetWindow s) ts).vsyncCount : ℚ) -
            ((runEdges (resetWindow s) ts).sumPeriodsUs : ℚ) /
                ((runEdges (resetWindow s) ts).vsyncCount : ℚ) *
              (((runEdges (resetWindow s) ts).sumPeriodsUs : ℚ) /
                ((runEdges (resetWindow s) ts).vsyncCount : ℚ)))) := by
  obtain ⟨hc, hsum, hsq, _, _⟩ := window_stats_exact s ts hn hs hq
  have hcs := sum_sq_le_length_mul_sumSq (foldedPeriods s.lastVsyncMicros ts)
  have hb := foldedPeriods_bounds ts s.lastVsyncMicros
  have hmain : (runEdges (resetWindow s) ts).vsyncCount *
      (runEdges (resetWindow s) ts).sumSqPeriodsUs2 ≥
      (runEdges (resetWindow s) ts).sumPeriodsUs ^ 2 := by
    rw [hc, hsum, hsq, sq]
    exact hcs
  refine ⟨hmain, ?_, ?_⟩
  · intro hall
    rw [hc, hsum, hsq]
    rcases hl : foldedPeriods s.lastVsyncMicros ts with _ | ⟨c, cs⟩
    · simp [sumSq]
    · have hconst : ∀ p ∈ foldedPeriods s.lastVsyncMicros ts, p = c := by
        intro p hp
        exact hall p hp c (by rw [hl]; exact List.mem_cons_self c cs)
      obtain ⟨e1, e2⟩ := sums_of_constant _ c hconst
      rw [← hl, e1, e2]
      ring
  · intro hge
    have hcq : (0 : ℚ) < ((runEdges (resetWindow s) ts).vsyncCount : ℚ) := by
      exact_mod_cast hge
    have hmq : ((runEdges (resetWindow s) ts).sumPeriodsUs : ℚ) ^ 2 ≤
        ((runEdges (resetWindow s) ts).vsyncCount : ℚ) *
          ((runEdges (resetWindow s) ts).sumSqPeriodsUs2 : ℚ) := by
      exact_mod_cast hmain
    have hvar : 0 ≤ ((runEdges (resetWindow s) ts).sumSqPeriodsUs2 : ℚ) /
            ((runEdges (resetWindow s) ts).vsyncCount : ℚ) -
          ((runEdges (resetWindow s) ts).sumPeriodsUs : ℚ) /
              ((runEdges (resetWindow s) ts).vsyncCount : ℚ) *
            (((runEdges (resetWindow s) ts).sumPeriodsUs : ℚ) /
              ((runEdges (resetWindow s) ts).vsyncCount : ℚ)) := by
      generalize ((runEdges (resetWindow s) ts).vsyncCount : ℚ) = n at hcq hmq ⊢
      generalize ((runEdges (resetWindow s) ts).sumPeriodsUs : ℚ) = a at hmq ⊢
      generalize ((runEdges (resetWindow s) ts).sumSqPeriodsUs2 : ℚ) = b at hmq ⊢
      have hne : n ≠ 0 := ne_of_gt hcq
      have e : b / n - a / n * (a / n) = (n * b - a ^ 2) / (n * n) := by
        field_simp
        ring
      rw [e]
      exact div_nonneg (by linarith) (by positivity)
    refine ⟨hvar, ?_⟩
    have hlen : 1 ≤ (foldedPeriods s.lastVsyncMicros ts).length := by
      rw [← hc]
      exact hge
    obtain ⟨b1, _, _⟩ := sums_bounds (foldedPeriods s.lastVsyncMicros ts) 5000 4294967296
      (fun p hp => ⟨(hb p hp).1, le_of_lt (hb p hp).2⟩)
    have hsp : (snapshot (runEdges (resetWindow s) ts)).sumP > 0 := by
      show (runEdges (resetWindow s) ts).sumPeriodsUs > 0
      rw [hsum]
      omega
    have hd := deriveStats_valid exactArith (snapshot (runEdges (resetWindow s) ts)) hge hsp
    have hnot : ¬ (((runEdges (resetWindow s) ts).sumSqPeriodsUs2 : ℚ) /
            ((runEdges (resetWindow s) ts).vsyncCount : ℚ) -
          ((runEdges (resetWindow s) ts).sumPeriodsUs : ℚ) /
              ((runEdges (resetWindow s) ts).vsyncCount : ℚ) *
            (((runEdges (resetWindow s) ts).sumPeriodsUs : ℚ) /
              ((runEdges (resetWindow s) ts).vsyncCount : ℚ)) < 0) := not_lt.mpr hvar
    simp only [computeWindow, hd]
    show exactArith.sqrt (if ((runEdges (resetWindow s) ts).sumSqPeriodsUs2 : ℚ) /
            ((runEdges (resetWindow s) ts).vsyncCount : ℚ) -
          ((runEdges (resetWindow s) ts).sumPeriodsUs : ℚ) /
              ((runEdges (resetWindow s) ts).vsyncCount : ℚ) *
            (((runEdges (resetWindow s) ts).sumPeriodsUs : ℚ) /
              ((runEdges (resetWindow s) ts).vsyncCount : ℚ)) < 0 then 0 else _) = _
    rw [if_neg hnot]
    rfl

/-- Witness for the amended C17: edges at 1000, 17667 and 34337 us. -/
theorem variance_nonneg_witness :
    (foldedPeriods powerOn.lastVsyncMicros [1000, 17667, 34337]).length < U32 ∧
    (runEdges (resetWindow powerOn) [1000, 17667, 34337]).vsyncCount *
        (runEdges (resetWindow powerOn) [1000, 17667, 34337]).sumSqPeriodsUs2 ≥
      (runEdges (resetWindow powerOn) [1000, 17667, 34337]).sumPeriodsUs ^ 2 :=
  ⟨by decide,
   (variance_nonneg powerOn [1000, 17667, 34337] 34338 PinStatus.LOW (by decide) (by decide)
     (by decide)).1⟩

/-! ## Scenario C: alternating periods -/

end GenlockWhisker
